import Mathlib

/-!
Verification of the storage and concurrency core of the BusTub-derived
engine (CMU-15445-2021Fall): LRU replacer, buffer-pool-instance metadata
machine, extendible-hash bucket pages and split/merge, and the lock
manager.  Every definition is a shallow embedding of the corresponding
C++ source function; stateful code is modelled as explicit state passing,
with operations taken to be atomic (the sequential semantics of the
code).  Page data bytes and disk I/O are not modelled: no claim below
mentions page contents.  Machine integers are modelled by Int / Nat;
none of the quantities involved (pin counts, depths, list lengths)
can overflow in the scenarios the claims quantify over.
-/

/-! ## LRU replacer

Model of `src/buffer/lru_replacer.cpp` (the vector-indexed variant, the
one matching the in-tree `lru_replacer.h`, with `IsIdValid` and
`lru_vec_`).  The doubly-linked list with a sentinel head is modelled as
a Lean list whose head is the LRU end (`dummy_->prev`, the victim) and
whose last element is the MRU end (`dummy_->next`).  The `lru_vec_`
pointer array is exactly the membership test on that list.  Frame ids
are `Int` (`frame_id_t` is a signed 32-bit integer).
-/

structure LRUReplacer where
  num_pages : Nat
  lru_list : List Int
deriving Repr, DecidableEq

namespace LRUReplacer

/-- Constructor: empty list, given capacity. -/
def mk0 (num_pages : Nat) : LRUReplacer :=
  { num_pages := num_pages, lru_list := [] }

/-- `LRUReplacer::IsIdValid`: `fid >= 0 && fid < num_pages_`. -/
def IsIdValid (r : LRUReplacer) (fid : Int) : Bool :=
  0 ≤ fid ∧ fid < (r.num_pages : Int)

/-- `LRUReplacer::Unpin`: ignore an invalid id; ignore a frame already
present; otherwise insert the frame at the MRU end. -/
def Unpin (r : LRUReplacer) (fid : Int) : LRUReplacer :=
  if ¬r.IsIdValid fid then r
  else if fid ∈ r.lru_list then r
  else { r with lru_list := r.lru_list ++ [fid] }

/-- `LRUReplacer::Pin`: ignore an invalid id; ignore an absent frame;
otherwise remove the frame from the list. -/
def Pin (r : LRUReplacer) (fid : Int) : LRUReplacer :=
  if ¬r.IsIdValid fid then r
  else if fid ∉ r.lru_list then r
  else { r with lru_list := r.lru_list.erase fid }

/-- `LRUReplacer::Victim`: none if empty, else pop the LRU end
(`dummy_->prev`, the head of our list). -/
def Victim (r : LRUReplacer) : Option Int × LRUReplacer :=
  match r.lru_list with
  | [] => (none, r)
  | fid :: rest => (some fid, { r with lru_list := rest })

/-- `LRUReplacer::Size`: the frame counter. -/
def Size (r : LRUReplacer) : Nat :=
  r.lru_list.length

end LRUReplacer

/-! ## Extendible-hash bucket page

Model of `src/storage/page/hash_table_bucket_page.cpp` (the snapshot
with tombstone reuse and `InsertAt`, the one used by the hash table in
`src/container/hash/extendible_hash_table.cpp`).  The `occupied_` and
`readable_` bitmaps together with the `array_` of pairs are modelled as
one list of slots; the word-at-a-time bitmap scans of `IsFull` /
`IsEmpty` / `NumReadable` are modelled by their per-slot meaning.  Keys
and values are `Nat` (the `<int, int, IntComparator>` instantiation;
the comparator is equality). -/

structure BucketSlot where
  occupied : Bool
  readable : Bool
  key : Nat
  value : Nat
deriving Repr, DecidableEq

/-- A bucket page: `BUCKET_ARRAY_SIZE` slots in index order. -/
abbrev BucketPage := List BucketSlot

namespace BucketPage

/-- A zeroed page, as produced by the buffer pool for a new bucket:
both bitmaps clear, zero keys and values. -/
def newBucket (size : Nat) : BucketPage :=
  List.replicate size { occupied := false, readable := false, key := 0, value := 0 }

/-- `HASH_TABLE_BUCKET_TYPE::Insert`: scan slots in index order; a
non-occupied slot takes the pair; an occupied non-readable slot (a
tombstone) is reused; a readable slot equal to `(key, value)` fails the
insert as a duplicate; otherwise keep scanning.  Returns the C++ return
value and the updated page. -/
def Insert (b : BucketPage) (key value : Nat) : Bool × BucketPage :=
  match b with
  | [] => (false, [])
  | s :: rest =>
    if ¬s.occupied then
      (true, { occupied := true, readable := true, key := key, value := value } :: rest)
    else if ¬s.readable then
      (true, { s with readable := true, key := key, value := value } :: rest)
    else if s.key = key ∧ s.value = value then
      (false, s :: rest)
    else
      let r := Insert rest key value
      (r.1, s :: r.2)

/-- `HASH_TABLE_BUCKET_TYPE::Remove`: clear the readable bit of the
first occupied-and-readable slot holding `(key, value)`; the occupied
bit is kept, leaving a tombstone. -/
def Remove (b : BucketPage) (key value : Nat) : Bool × BucketPage :=
  match b with
  | [] => (false, [])
  | s :: rest =>
    if s.occupied ∧ s.readable ∧ s.key = key ∧ s.value = value then
      (true, { s with readable := false } :: rest)
    else
      let r := Remove rest key value
      (r.1, s :: r.2)

/-- `HASH_TABLE_BUCKET_TYPE::GetValue`: the values of all
occupied-and-readable slots whose key matches, in index order. -/
def GetValue (b : BucketPage) (key : Nat) : List Nat :=
  (b.filter fun s => s.occupied ∧ s.readable ∧ s.key = key).map (·.value)

/-- `HASH_TABLE_BUCKET_TYPE::IsFull`: every readable bit set (the
word-at-a-time scan of `readable_` against all-ones). -/
def IsFull (b : BucketPage) : Bool :=
  b.all (·.readable)

/-- `HASH_TABLE_BUCKET_TYPE::IsEmpty`: every readable bit clear (the
word-at-a-time scan of `readable_` against all-zeros). -/
def IsEmpty (b : BucketPage) : Bool :=
  b.all (fun s => ¬s.readable)

/-- `HASH_TABLE_BUCKET_TYPE::NumReadable`: population count of the
readable bitmap. -/
def NumReadable (b : BucketPage) : Nat :=
  (b.filter (·.readable)).length

end BucketPage

/-! ## Extendible-hash directory page and table algorithms

The hash-table algorithms are modelled from
`src/container/hash/extendible_hash_table.cpp` (the snapshot with the
recursive `SplitInsert`, the `MAX_DEPTH` check and the full-sweep
`Merge`; it is the one the spec designates).  The directory-page
implementation (`hash_table_directory_page.cpp`) is not under `src/`
(only its callers and its page test are), so its primitive accessors
are modelled from the spec, as marked on each definition. -/

/-- Modelled from the spec (the directory-page source is missing from
`src/`): a directory page holds a global depth `G` and, for every index,
a bucket page id and a local depth (spec section 3, "Directory page").
The fixed `2^MAX_DEPTH` C array is modelled as total functions; only
indices below `2^G` are live. -/
structure HashTableDirectoryPage where
  global_depth : Nat
  bucket_page_ids : Nat → Int
  local_depths : Nat → Nat

namespace HashTableDirectoryPage

/-- `GetGlobalDepthMask`: a mask with exactly `global_depth` ones from
the LSB upwards (documented in `extendible_hash_table.h`). -/
def GetGlobalDepthMask (d : HashTableDirectoryPage) : Nat :=
  2 ^ d.global_depth - 1

/-- Modelled from the spec: `GetBucketPageId` reads the directory
entry. -/
def GetBucketPageId (d : HashTableDirectoryPage) (idx : Nat) : Int :=
  d.bucket_page_ids idx

/-- Modelled from the spec: `SetBucketPageId` writes the directory
entry. -/
def SetBucketPageId (d : HashTableDirectoryPage) (idx : Nat) (pid : Int) :
    HashTableDirectoryPage :=
  { d with bucket_page_ids := fun i => if i = idx then pid else d.bucket_page_ids i }

/-- Modelled from the spec: `GetLocalDepth` reads the entry's local
depth. -/
def GetLocalDepth (d : HashTableDirectoryPage) (idx : Nat) : Nat :=
  d.local_depths idx

/-- Modelled from the spec: `IncrLocalDepth` increments the entry's
local depth. -/
def IncrLocalDepth (d : HashTableDirectoryPage) (idx : Nat) : HashTableDirectoryPage :=
  { d with local_depths := fun i => if i = idx then d.local_depths i + 1 else d.local_depths i }

/-- Modelled from the spec: `DecrLocalDepth` decrements the entry's
local depth. -/
def DecrLocalDepth (d : HashTableDirectoryPage) (idx : Nat) : HashTableDirectoryPage :=
  { d with local_depths := fun i => if i = idx then d.local_depths i - 1 else d.local_depths i }

/-- Modelled from the spec (glossary "split image": a bucket of local
depth `d` splits on bit `d`): `GetLocalHighBit` is the power of two at
the entry's local depth. -/
def GetLocalHighBit (d : HashTableDirectoryPage) (idx : Nat) : Nat :=
  1 <<< d.local_depths idx

/-- Modelled from the spec: `IncrGlobalDepth` doubles the directory;
the new upper half mirrors the lower half, so that `dir[i] = dir[j]`
whenever `i ≡ j (mod 2^local_depth)` keeps holding (spec section 3). -/
def IncrGlobalDepth (d : HashTableDirectoryPage) : HashTableDirectoryPage :=
  { global_depth := d.global_depth + 1
    bucket_page_ids := fun i =>
      if i < 2 ^ (d.global_depth + 1) then d.bucket_page_ids (i % 2 ^ d.global_depth)
      else d.bucket_page_ids i
    local_depths := fun i =>
      if i < 2 ^ (d.global_depth + 1) then d.local_depths (i % 2 ^ d.global_depth)
      else d.local_depths i }

/-- Modelled from the spec: `DecrGlobalDepth` halves the directory. -/
def DecrGlobalDepth (d : HashTableDirectoryPage) : HashTableDirectoryPage :=
  { d with global_depth := d.global_depth - 1 }

/-- Modelled from the spec: `CanShrink` holds when no live entry's
local depth reaches the global depth, so halving loses nothing. -/
def CanShrink (d : HashTableDirectoryPage) : Bool :=
  (List.range (2 ^ d.global_depth)).all fun i => d.local_depths i < d.global_depth

/-- Modelled from the spec ("directory cannot grow beyond MAX_DEPTH"):
the directory is full when the global depth has reached `max_depth`. -/
def IsFull (max_depth : Nat) (d : HashTableDirectoryPage) : Bool :=
  d.global_depth = max_depth

end HashTableDirectoryPage

/-- The table state seen by `SplitInsert` and `Merge`: the directory
page, the bucket page contents by page id, and the next page id the
buffer pool would hand to `NewPageHelper`. -/
structure HashTableState where
  dir : HashTableDirectoryPage
  buckets : Int → BucketPage
  next_page_id : Int

namespace HashTableState

/-- Update one bucket page. -/
def setBucket (st : HashTableState) (pid : Int) (b : BucketPage) : HashTableState :=
  { st with buckets := fun p => if p = pid then b else st.buckets p }

end HashTableState

/-- `HASH_TABLE_TYPE::KeyToDirectoryIndex`: `Hash(key) & GetGlobalDepthMask()`.
The parameter `h` stands for the (already 32-bit) `hash_fn_`. -/
def KeyToDirectoryIndex (h : Nat → Nat) (d : HashTableDirectoryPage) (key : Nat) : Nat :=
  h key &&& d.GetGlobalDepthMask

/-- `HASH_TABLE_TYPE::KeyToBucketIndexByHighBit`:
`Hash(key) & ((high_bit << 1) - 1)`. -/
def KeyToBucketIndexByHighBit (h : Nat → Nat) (high_bit key : Nat) : Nat :=
  h key &&& ((high_bit <<< 1) - 1)

/-- `HASH_TABLE_TYPE::BucketSplit`, the per-slot sweep: every slot
whose key maps (by `KeyToBucketIndexByHighBit`) to `target` has its
readable bit cleared (`RemoveAt`) and its pair appended, in index
order, to the list of moved pairs; the flags are not consulted, exactly
as in the source.  Returns the updated source bucket and the moved
pairs. -/
def BucketSplitRun (h : Nat → Nat) (high_bit target : Nat) :
    BucketPage → BucketPage × List (Nat × Nat)
  | [] => ([], [])
  | s :: rest =>
    let r := BucketSplitRun h high_bit target rest
    if KeyToBucketIndexByHighBit h high_bit s.key = target then
      ({ s with readable := false } :: r.1, (s.key, s.value) :: r.2)
    else
      (s :: r.1, r.2)

/-- The `InsertAt` calls of `BucketSplit` on the fresh split bucket:
the moved pairs land in slots `0, 1, 2, ...` with occupied and readable
set. -/
def InsertAtRun : BucketPage → List (Nat × Nat) → BucketPage
  | b, [] => b
  | [], _ => []
  | _ :: rest, p :: ps =>
    { occupied := true, readable := true, key := p.1, value := p.2 } :: InsertAtRun rest ps

/-- One run of `HASH_TABLE_TYPE::SplitInsert` either returns (`done`,
with the C++ return value) or reaches the tail-recursive retry
(`again`). -/
inductive SplitOutcome where
  | done : Bool → HashTableState → SplitOutcome
  | again : HashTableState → SplitOutcome

namespace SplitOutcome

/-- Projection: the outcome reached the tail-recursive retry. -/
def isAgain : SplitOutcome → Bool
  | again _ => true
  | done _ _ => false

/-- Projection: the outcome returned `false` to the caller. -/
def isDoneFalse : SplitOutcome → Bool
  | done false _ => true
  | _ => false

end SplitOutcome

/-- One run of `HASH_TABLE_TYPE::SplitInsert` (latching and pin/unpin
calls dropped; `NewPageHelper` hands out `next_page_id` zeroed).  The
final `return is_split_success ? has_inserted : SplitInsert(...)` is
the `done` / `again` distinction. -/
def SplitInsertStep (max_depth bucket_size : Nat) (h : Nat → Nat)
    (st : HashTableState) (key value : Nat) : SplitOutcome :=
  let dir := st.dir
  let bucket_idx := KeyToDirectoryIndex h dir key
  let bucket_page_id := dir.GetBucketPageId bucket_idx
  let bucket := st.buckets bucket_page_id
  if BucketPage.IsFull bucket then
    if dir.GetLocalDepth bucket_idx = dir.global_depth ∧
        HashTableDirectoryPage.IsFull max_depth dir then
      SplitOutcome.done false st
    else
      let dir1 := if dir.GetLocalDepth bucket_idx = dir.global_depth then
        dir.IncrGlobalDepth else dir
      let split_bucket_page_id := st.next_page_id
      let high_bit := dir1.GetLocalHighBit bucket_idx
      let split_image_idx := bucket_idx ^^^ high_bit
      let dir2 := (((dir1.IncrLocalDepth bucket_idx).IncrLocalDepth
        split_image_idx).SetBucketPageId split_image_idx split_bucket_page_id)
      let sp := BucketSplitRun h high_bit split_image_idx bucket
      let split_bucket := InsertAtRun (BucketPage.newBucket bucket_size) sp.2
      let split_count := sp.2.length
      let st1 : HashTableState :=
        { dir := dir2, buckets := st.buckets, next_page_id := st.next_page_id + 1 }
      if KeyToBucketIndexByHighBit h high_bit key = split_image_idx then
        let r := BucketPage.Insert split_bucket key value
        SplitOutcome.done r.1
          ((st1.setBucket bucket_page_id sp.1).setBucket split_bucket_page_id r.2)
      else if 0 < split_count then
        let r := BucketPage.Insert sp.1 key value
        SplitOutcome.done r.1
          ((st1.setBucket bucket_page_id r.2).setBucket split_bucket_page_id split_bucket)
      else
        SplitOutcome.again
          ((st1.setBucket bucket_page_id sp.1).setBucket split_bucket_page_id split_bucket)
  else
    let r := BucketPage.Insert bucket key value
    SplitOutcome.done r.1 (st.setBucket bucket_page_id r.2)

/-- The directory rewrite loop of `HASH_TABLE_TYPE::Merge`: for
`i < idx_num` the entry at `(i << new_depth) | (bucket_idx & mask)` has
its local depth decremented and is redirected to the split image's
page. -/
def MergeSweep (dir : HashTableDirectoryPage) (idx_num new_depth bucket_idx mask : Nat)
    (split_bucket_page_id : Int) : HashTableDirectoryPage :=
  (List.range idx_num).foldl
    (fun d i =>
      (d.DecrLocalDepth ((i <<< new_depth) ||| (bucket_idx &&& mask))).SetBucketPageId
        ((i <<< new_depth) ||| (bucket_idx &&& mask)) split_bucket_page_id)
    dir

/-- Result of one run of `HASH_TABLE_TYPE::Merge`: the state, the
`has_modified` flag (a merge actually happened) and `need_merge_again`
(the split image was empty too, so `Merge` tail-recurses). -/
structure MergeResult where
  state : HashTableState
  has_modified : Bool
  need_merge_again : Bool

/-- One run of `HASH_TABLE_TYPE::Merge` (latching and pin/unpin calls
dropped; the final `DeletePage` returns the emptied page to the buffer
pool and does not touch the directory). -/
def MergeStep (h : Nat → Nat) (st : HashTableState) (key : Nat) : MergeResult :=
  let dir := st.dir
  let bucket_idx := KeyToDirectoryIndex h dir key
  let bucket_page_id := dir.GetBucketPageId bucket_idx
  let local_depth := dir.GetLocalDepth bucket_idx
  if local_depth = 0 then
    { state := st, has_modified := false, need_merge_again := false }
  else if ¬BucketPage.IsEmpty (st.buckets bucket_page_id) then
    { state := st, has_modified := false, need_merge_again := false }
  else
    let high_bit := dir.GetLocalHighBit bucket_idx >>> 1
    let split_bucket_idx := bucket_idx ^^^ high_bit
    let split_bucket_page_id := dir.GetBucketPageId split_bucket_idx
    if local_depth ≠ dir.GetLocalDepth split_bucket_idx then
      { state := st, has_modified := false, need_merge_again := false }
    else
      let new_depth := local_depth - 1
      let idx_num := 2 ^ (dir.global_depth - new_depth)
      let mask := 2 ^ new_depth - 1
      let dir1 := MergeSweep dir idx_num new_depth bucket_idx mask split_bucket_page_id
      let dir2 := if dir1.CanShrink then dir1.DecrGlobalDepth else dir1
      { state := { st with dir := dir2 }
        has_modified := true
        need_merge_again := BucketPage.IsEmpty (st.buckets split_bucket_page_id) }

/-! ## Lock manager

Model of `src/concurrency/lock_manager.cpp`.  A transaction is its id,
state, isolation level and held-lock sets; transaction states reached
through `TransactionManager::GetTransaction` are a map from txn id to
state.  The blocking loop of `WaitInQueue` is real concurrency and is
not modelled; the claims below are about the pre-wait surface
(`SanityCheck`, re-entry) and the wounding pass, which are sequential
code. -/

inductive LockMode where
  | SHARED
  | EXCLUSIVE
deriving Repr, DecidableEq

inductive TransactionState where
  | GROWING
  | SHRINKING
  | COMMITTED
  | ABORTED
deriving Repr, DecidableEq

inductive IsolationLevel where
  | READ_UNCOMMITTED
  | READ_COMMITTED
  | REPEATABLE_READ
deriving Repr, DecidableEq

inductive AbortReason where
  | DEADLOCK
  | LOCK_ON_SHRINKING
  | LOCKSHARED_ON_READ_UNCOMMITTED
  | UPGRADE_CONFLICT
deriving Repr, DecidableEq

/-- A record id: `(page_id, slot_num)`. -/
abbrev RID := Int × Nat

/-- The slice of `Transaction` the lock manager reads and writes. -/
structure Transaction where
  txn_id : Int
  state : TransactionState
  isolation_level : IsolationLevel
  shared_lock_set : List RID
  exclusive_lock_set : List RID
deriving Repr, DecidableEq

/-- `LockManager::LockRequest`. -/
structure LockRequest where
  txn_id : Int
  lock_mode : LockMode
  granted : Bool
  wounded : Bool
deriving Repr, DecidableEq

/-- `LockManager::LockRequestQueue` (condition variable and mutex are
synchronization, not state). -/
structure LockRequestQueue where
  grant_queue : List LockRequest
  wait_queue : List LockRequest
  upgrading : Int
deriving Repr, DecidableEq

/-- `LockManager::SanityCheck`: the three pre-checks of every lock
acquisition.  `none` means the check passed; otherwise the updated
transaction and the reason thrown. -/
def SanityCheck (txn : Transaction) (mode : LockMode) :
    Option (Transaction × AbortReason) :=
  if txn.state = TransactionState.ABORTED then
    some (txn, AbortReason.DEADLOCK)
  else if txn.state = TransactionState.SHRINKING then
    some ({ txn with state := TransactionState.ABORTED }, AbortReason.LOCK_ON_SHRINKING)
  else if mode = LockMode.SHARED ∧
      txn.isolation_level = IsolationLevel.READ_UNCOMMITTED then
    some ({ txn with state := TransactionState.ABORTED },
      AbortReason.LOCKSHARED_ON_READ_UNCOMMITTED)
  else
    none

/-- How a lock acquisition leaves the pre-wait surface: it throws, or
returns `true` at the re-entry check (before `GetRequestQueue`, so the
request queue is never touched), or goes on to enqueue and wait. -/
inductive LockAcqOutcome where
  | thrown : AbortReason → Transaction → LockAcqOutcome
  | reentrant : Transaction → LockAcqOutcome
  | enqueue : Transaction → LockAcqOutcome
deriving Repr, DecidableEq

/-- `LockManager::LockShared` up to `WaitInQueue`. -/
def LockSharedEntry (txn : Transaction) (rid : RID) : LockAcqOutcome :=
  match SanityCheck txn LockMode.SHARED with
  | some (txn1, reason) => LockAcqOutcome.thrown reason txn1
  | none =>
    if rid ∈ txn.shared_lock_set ∨ rid ∈ txn.exclusive_lock_set then
      LockAcqOutcome.reentrant txn
    else
      LockAcqOutcome.enqueue txn

/-- `LockManager::LockExclusive` up to `WaitInQueue`. -/
def LockExclusiveEntry (txn : Transaction) (rid : RID) : LockAcqOutcome :=
  match SanityCheck txn LockMode.EXCLUSIVE with
  | some (txn1, reason) => LockAcqOutcome.thrown reason txn1
  | none =>
    if rid ∈ txn.exclusive_lock_set then
      LockAcqOutcome.reentrant txn
    else
      LockAcqOutcome.enqueue txn

/-- `LockManager::LockUpgrade` up to the upgrade path (the sanity check
runs with `EXCLUSIVE` mode, then an exclusive lock already held
re-enters). -/
def LockUpgradeEntry (txn : Transaction) (rid : RID) : LockAcqOutcome :=
  match SanityCheck txn LockMode.EXCLUSIVE with
  | some (txn1, reason) => LockAcqOutcome.thrown reason txn1
  | none =>
    if rid ∈ txn.exclusive_lock_set then
      LockAcqOutcome.reentrant txn
    else
      LockAcqOutcome.enqueue txn

/-- `LockManager::WoundRequestsInQueue`: walk the queue; stop at this
transaction's own request; wound every not-yet-wounded request of a
strictly younger transaction (`txn_id_ > txn_id`), marking it wounded
and setting that transaction's state to ABORTED.  Returns the rewritten
queue, the updated transaction-state map and the wound count. -/
def WoundRequestsInQueue (queue : List LockRequest) (txn_id : Int)
    (tstates : Int → TransactionState) :
    List LockRequest × (Int → TransactionState) × Nat :=
  match queue with
  | [] => ([], tstates, 0)
  | req :: rest =>
    if req.txn_id = txn_id then
      (req :: rest, tstates, 0)
    else if ¬req.wounded ∧ txn_id < req.txn_id then
      let r := WoundRequestsInQueue rest txn_id
        (fun i => if i = req.txn_id then TransactionState.ABORTED else tstates i)
      ({ req with wounded := true } :: r.1, r.2.1, r.2.2 + 1)
    else
      let r := WoundRequestsInQueue rest txn_id tstates
      (req :: r.1, r.2.1, r.2.2)

/-- `LockManager::TryWoundYoungerRequests`: wound in the grant queue,
then in the wait queue; only the wait-queue count is returned. -/
def TryWoundYoungerRequests (q : LockRequestQueue) (txn_id : Int)
    (tstates : Int → TransactionState) :
    LockRequestQueue × (Int → TransactionState) × Nat :=
  let g := WoundRequestsInQueue q.grant_queue txn_id tstates
  let w := WoundRequestsInQueue q.wait_queue txn_id g.2.1
  ({ q with grant_queue := g.1, wait_queue := w.1 }, w.2.1, w.2.2)

/-- The grant-queue scan of `LockManager::Unlock`: the first request of
this transaction, and the queue with it erased. -/
def FindGrant (queue : List LockRequest) (txn_id : Int) :
    Option (LockRequest × List LockRequest) :=
  match queue with
  | [] => none
  | req :: rest =>
    if req.txn_id = txn_id then
      some (req, rest)
    else
      match FindGrant rest txn_id with
      | none => none
      | some (r, q) => some (r, req :: q)

/-- The 2PL phase transition at the end of `LockManager::Unlock`:
a GROWING transaction turns SHRINKING unless it just released a SHARED
lock under READ_COMMITTED. -/
def UnlockShrink (txn : Transaction) (is_shared_mode : Bool) : Transaction :=
  if txn.state = TransactionState.GROWING ∧
      ¬(is_shared_mode ∧ txn.isolation_level = IsolationLevel.READ_COMMITTED) then
    { txn with state := TransactionState.SHRINKING }
  else
    txn

/-- `LockManager::Unlock`: remove this transaction's grant (erasing the
rid from the matching held-lock set), run the phase transition, return
whether a grant was found. -/
def Unlock (txn : Transaction) (q : LockRequestQueue) (rid : RID) :
    Bool × Transaction × LockRequestQueue :=
  match FindGrant q.grant_queue txn.txn_id with
  | none =>
    (false, UnlockShrink txn false, q)
  | some (req, rest) =>
    let txn1 :=
      if req.lock_mode = LockMode.SHARED then
        { txn with shared_lock_set := txn.shared_lock_set.erase rid }
      else
        { txn with exclusive_lock_set := txn.exclusive_lock_set.erase rid }
    (true, UnlockShrink txn1 (req.lock_mode = LockMode.SHARED),
      { q with grant_queue := rest })

/-! ## Buffer-pool instance

Two snapshots of `buffer_pool_manager_instance.cpp` ship in the
repository.  `BPv1` models the snapshot with the `just_dirtied` flag
(the named file `src/src/buffer/buffer_pool_manager_instance.cpp`);
`BPv2` models the snapshot that matches the in-tree headers
(`page.h` without `just_dirtied`, `buffer_pool_manager_instance.h`
declaring `InnerPageFlush` and documenting the delete path), whose
`DeletePgImp` resets the frame and returns it to the free list.  The
single-instance configuration is modelled (`num_instances = 1`,
`instance_index = 0`), so `AllocatePage` steps the page-id counter by
one.  States are metadata only; page bytes and disk I/O are dropped. -/

/-- `page_table_` lookup (`std::unordered_map<page_id_t, frame_id_t>`;
keys are unique, so an association list searched front-to-back). -/
def tableLookup (t : List (Int × Nat)) (pid : Int) : Option Nat :=
  match t with
  | [] => none
  | pr :: rest => if pr.1 = pid then some pr.2 else tableLookup rest pid

/-- `page_table_.emplace`. -/
def tableInsert (t : List (Int × Nat)) (pid : Int) (f : Nat) : List (Int × Nat) :=
  (pid, f) :: t

/-- `page_table_.erase`. -/
def tableErase (t : List (Int × Nat)) (pid : Int) : List (Int × Nat) :=
  t.filter fun pr => pr.1 ≠ pid

/-- The pool's `LRUReplacer` instantiated at in-range `Nat` frame ids
(head of the list = LRU victim end, back = MRU end):
`LRUReplacer::Unpin`. -/
def replUnpin (num_pages : Nat) (r : List Nat) (f : Nat) : List Nat :=
  if ¬f < num_pages then r
  else if f ∈ r then r
  else r ++ [f]

/-- `LRUReplacer::Pin` on the pool's replacer. -/
def replPin (num_pages : Nat) (r : List Nat) (f : Nat) : List Nat :=
  if ¬f < num_pages then r
  else if f ∉ r then r
  else r.erase f

/-- `LRUReplacer::Victim` on the pool's replacer. -/
def replVictim (r : List Nat) : Option Nat × List Nat :=
  match r with
  | [] => (none, r)
  | f :: rest => (some f, rest)

namespace BPv1

/-- Frame metadata of `Page` (this snapshot carries `just_dirtied`). -/
structure Page where
  page_id : Int
  pin_count : Int
  is_dirty : Bool
  just_dirtied : Bool
deriving Repr, DecidableEq

/-- The state of one `BufferPoolManagerInstance`. -/
structure BPState where
  pool_size : Nat
  pages : Nat → Page
  page_table : List (Int × Nat)
  replacer : List Nat
  free_list : List Nat
  next_page_id : Int

/-- Write one frame's metadata. -/
def setPage (s : BPState) (f : Nat) (p : Page) : BPState :=
  { s with pages := fun i => if i = f then p else s.pages i }

/-- The constructor: all frames default-constructed
(`page_id = INVALID`, pin 0, clean), every frame in the free list,
empty page table and replacer, `next_page_id_ = 0`. -/
def initState (n : Nat) : BPState :=
  { pool_size := n
    pages := fun _ => { page_id := -1, pin_count := 0, is_dirty := false, just_dirtied := false }
    page_table := []
    replacer := []
    free_list := List.range n
    next_page_id := 0 }

/-- `BufferPoolManagerInstance::ResetPageMeta`. -/
def ResetPageMeta (pid : Int) : Page :=
  { page_id := pid, is_dirty := false, just_dirtied := false, pin_count := 1 }

/-- `BufferPoolManagerInstance::AllocatePage` (single instance:
step 1). -/
def AllocatePage (s : BPState) : Int × BPState :=
  (s.next_page_id, { s with next_page_id := s.next_page_id + 1 })

/-- `BufferPoolManagerInstance::FreeListGetFrame`: pop a free frame;
allocate a fresh id when asked for `INVALID_PAGE_ID`; if the id is
still unmapped, install the mapping and reset the frame (pin 1),
otherwise push the frame back and return the existing mapping.
Returns (frame or none, resulting page id, state). -/
def FreeListGetFrame (s : BPState) (pid : Int) : Option Nat × Int × BPState :=
  match s.free_list with
  | [] => (none, pid, s)
  | f :: fl =>
    let s1 : BPState := { s with free_list := fl }
    let pid1 : Int := if pid = -1 then s1.next_page_id else pid
    let s2 : BPState :=
      if pid = -1 then { s1 with next_page_id := s1.next_page_id + 1 } else s1
    match tableLookup s2.page_table pid1 with
    | none =>
      let s3 := setPage s2 f (ResetPageMeta pid1)
      (some f, pid1, { s3 with page_table := tableInsert s3.page_table pid1 f })
    | some existing =>
      (some existing, pid1, { s2 with free_list := s2.free_list ++ [f] })

/-- `BufferPoolManagerInstance::ReplacerGetFrame`: pop victims until
one has pin count 0; if meanwhile the wanted id is mapped, put the
victim back into the replacer and return the existing mapping;
otherwise rewrite the page table and reset the victim frame (pin 1). -/
def ReplacerGetFrame (s : BPState) (pid : Int) : Option Nat × Int × BPState :=
  match hr : s.replacer with
  | [] => (none, pid, s)
  | f :: r =>
    let s1 : BPState := { s with replacer := r }
    let pid1 : Int := if pid = -1 then s1.next_page_id else pid
    let s2 : BPState :=
      if pid = -1 then { s1 with next_page_id := s1.next_page_id + 1 } else s1
    let p := s2.pages f
    if 0 < p.pin_count then
      ReplacerGetFrame s2 pid1
    else
      match tableLookup s2.page_table pid1 with
      | some existing =>
        (some existing, pid1, { s2 with replacer := replUnpin s2.pool_size s2.replacer f })
      | none =>
        let old_page_id := p.page_id
        let s3 := setPage s2 f (ResetPageMeta pid1)
        (some f, pid1,
          { s3 with page_table := tableInsert (tableErase s3.page_table old_page_id) pid1 f })
termination_by s.replacer.length
decreasing_by
  simp only [hr]
  split <;> simp [List.length_cons, Nat.lt_succ_self]

/-- `BufferPoolManagerInstance::FetchPgImp`: a resident page is pinned
(removing it from the replacer on a 0 to 1 transition); otherwise the
free list is tried first, then replacement. -/
def FetchPgImp (s : BPState) (pid : Int) : Option Nat × BPState :=
  match tableLookup s.page_table pid with
  | some f =>
    let p := s.pages f
    let s1 := setPage s f { p with pin_count := p.pin_count + 1 }
    let s2 :=
      if p.pin_count = 0 then { s1 with replacer := replPin s1.pool_size s1.replacer f }
      else s1
    (some f, s2)
  | none =>
    let r := FreeListGetFrame s pid
    match r.1 with
    | some f => (some f, r.2.2)
    | none =>
      let r2 := ReplacerGetFrame s pid
      match r2.1 with
      | some f => (some f, r2.2.2)
      | none => (none, r2.2.2)

/-- `BufferPoolManagerInstance::NewPgImp`: same acquisition path with
`page_id = INVALID`; returns the frame and the freshly allocated id. -/
def NewPgImp (s : BPState) : Option (Nat × Int) × BPState :=
  let r := FreeListGetFrame s (-1)
  match r.1 with
  | some f => (some (f, r.2.1), r.2.2)
  | none =>
    let r2 := ReplacerGetFrame s (-1)
    match r2.1 with
    | some f => (some (f, r2.2.1), r2.2.2)
    | none => (none, r2.2.2)

/-- `BufferPoolManagerInstance::UnpinPgImp` (this snapshot): reject an
unknown id or a pin count that is already `<= 0`; otherwise decrement
the pin count, assign both `is_dirty_` and `just_dirtied` from the
argument, and hand the frame to the replacer when the pin count
reaches 0. -/
def UnpinPgImp (s : BPState) (pid : Int) (is_dirty : Bool) : Bool × BPState :=
  match tableLookup s.page_table pid with
  | none => (false, s)
  | some f =>
    let p := s.pages f
    if p.pin_count ≤ 0 then (false, s)
    else
      let p1 : Page :=
        { p with pin_count := p.pin_count - 1, is_dirty := is_dirty, just_dirtied := is_dirty }
      let s1 := setPage s f p1
      if p1.pin_count = 0 then
        (true, { s1 with replacer := replUnpin s1.pool_size s1.replacer f })
      else
        (true, s1)

/-- `BufferPoolManagerInstance::FlushPgImp` (this snapshot): pin the
frame (replacer pin on a 0 to 1 transition), clear `just_dirtied`,
write to disk, then unpin and clear `is_dirty_` only if `just_dirtied`
was not set again meanwhile. -/
def FlushPgImp (s : BPState) (pid : Int) : Bool × BPState :=
  match tableLookup s.page_table pid with
  | none => (false, s)
  | some f =>
    let p := s.pages f
    if ¬p.is_dirty then (true, s)
    else
      let old := p.pin_count
      let s1 := setPage s f { p with pin_count := p.pin_count + 1, just_dirtied := false }
      let s2 :=
        if old = 0 then { s1 with replacer := replPin s1.pool_size s1.replacer f } else s1
      let p2 := s2.pages f
      let old2 := p2.pin_count
      let p3 : Page := { p2 with pin_count := p2.pin_count - 1 }
      let p4 : Page := if ¬p3.just_dirtied then { p3 with is_dirty := false } else p3
      let s3 := setPage s2 f p4
      if old2 = 1 then (true, { s3 with replacer := replUnpin s3.pool_size s3.replacer f })
      else (true, s3)

/-- The loop body of `FlushAllPgsImp` for one `page_table_` entry:
clear `just_dirtied`, and if the page was dirty write it out and clear
`is_dirty_`. -/
def FlushOneEntry (acc : BPState) (pr : Int × Nat) : BPState :=
  let p := acc.pages pr.2
  let p1 : Page := { p with just_dirtied := false }
  if ¬p1.is_dirty then setPage acc pr.2 p1
  else setPage acc pr.2
    (if ¬p1.just_dirtied then { p1 with is_dirty := false } else p1)

/-- `BufferPoolManagerInstance::FlushAllPgsImp` (this snapshot): for
every page-table entry, clear `just_dirtied`, and if the page was dirty
write it out and clear `is_dirty_` (no pinning: the table lock bars
eviction). -/
def FlushAllPgsImp (s : BPState) : BPState :=
  s.page_table.foldl FlushOneEntry s

/-- `BufferPoolManagerInstance::DeletePgImp` (this snapshot): `false`
for an unknown id; `false` for a pinned page; otherwise the page-table
entry is erased (`DeallocatePage` is a no-op) and nothing else
changes. -/
def DeletePgImp (s : BPState) (pid : Int) : Bool × BPState :=
  match tableLookup s.page_table pid with
  | none => (false, s)
  | some f =>
    if 0 < (s.pages f).pin_count then (false, s)
    else (true, { s with page_table := tableErase s.page_table pid })

/-- The sequential small-step relation of a buffer-pool instance: the
states reachable from a freshly constructed pool through its public
operations, each taken atomically. -/
inductive Reachable : BPState → Prop where
  | init (n : Nat) : Reachable (initState n)
  | newPg {s : BPState} : Reachable s → Reachable (NewPgImp s).2
  | fetchPg {s : BPState} (pid : Int) : Reachable s → Reachable (FetchPgImp s pid).2
  | unpinPg {s : BPState} (pid : Int) (d : Bool) :
      Reachable s → Reachable (UnpinPgImp s pid d).2
  | flushPg {s : BPState} (pid : Int) : Reachable s → Reachable (FlushPgImp s pid).2
  | flushAllPgs {s : BPState} : Reachable s → Reachable (FlushAllPgsImp s)
  | deletePg {s : BPState} (pid : Int) : Reachable s → Reachable (DeletePgImp s pid).2

end BPv1

namespace BPv2

/-- Frame metadata of `Page` in the header snapshot (no
`just_dirtied`). -/
structure Page where
  page_id : Int
  pin_count : Int
  is_dirty : Bool
deriving Repr, DecidableEq

/-- The state of one `BufferPoolManagerInstance` (header snapshot). -/
structure BPState where
  pool_size : Nat
  pages : Nat → Page
  page_table : List (Int × Nat)
  replacer : List Nat
  free_list : List Nat
  next_page_id : Int

/-- Write one frame's metadata. -/
def setPage (s : BPState) (f : Nat) (p : Page) : BPState :=
  { s with pages := fun i => if i = f then p else s.pages i }

/-- `BufferPoolManagerInstance::AllocatePage` (single instance). -/
def AllocatePage (s : BPState) : Int × BPState :=
  (s.next_page_id, { s with next_page_id := s.next_page_id + 1 })

/-- `BufferPoolManagerInstance::DeallocatePage`: a documented no-op
("This is a no-nop right now without a more complex data structure to
track deallocated pages"), so page ids are never recycled. -/
def DeallocatePage (s : BPState) (pid : Int) : BPState :=
  s

/-- `BufferPoolManagerInstance::DeletePgImp` (header snapshot): `true`
for an unknown id; `false` for a pinned page; otherwise pin the frame,
remove it from the replacer, re-check the pin count, reset the frame
metadata (`page_id = INVALID`, clean, pin 0), erase the page-table
entry, call the no-op `DeallocatePage`, and append the frame to the
free list. -/
def DeletePgImp (s : BPState) (pid : Int) : Bool × BPState :=
  match tableLookup s.page_table pid with
  | none => (true, s)
  | some f =>
    let p := s.pages f
    if 0 < p.pin_count then (false, s)
    else
      let s1 := setPage s f { p with pin_count := p.pin_count + 1 }
      let s2 : BPState := { s1 with replacer := replPin s1.pool_size s1.replacer f }
      let p2 := s2.pages f
      if 1 < p2.pin_count then (false, s2)
      else
        let s3 := setPage s2 f { page_id := -1, is_dirty := false, pin_count := 0 }
        let s4 : BPState := { s3 with page_table := tableErase s3.page_table pid }
        let s5 := DeallocatePage s4 pid
        (true, { s5 with free_list := s5.free_list ++ [f] })

end BPv2

/-! ## Concrete fixtures used by the counterexamples and witnesses -/

/-- A one-frame pool whose resident page 0 sits in frame 0 with pin
count 1 and a set dirty flag. -/
def c1State : BPv1.BPState :=
  { pool_size := 1
    pages := fun _ => { page_id := 0, pin_count := 1, is_dirty := true, just_dirtied := true }
    page_table := [(0, 0)]
    replacer := []
    free_list := []
    next_page_id := 1 }

/-- A two-slot bucket: slot 0 is a tombstone (occupied, not readable),
slot 1 stores the readable pair `(5, 7)`. -/
def c6Bucket : BucketPage :=
  [{ occupied := true, readable := false, key := 1, value := 1 },
   { occupied := true, readable := true, key := 5, value := 7 }]

/-- A depth-0 hash table with one full two-slot bucket (page 10) whose
keys 1 and 3 all carry hash bit 0 set, so that a split on bit 0 moves
every pair to the split image. -/
def c2State : HashTableState :=
  { dir := { global_depth := 0, bucket_page_ids := fun _ => 10, local_depths := fun _ => 0 }
    buckets := fun p =>
      if p = 10 then
        [{ occupied := true, readable := true, key := 1, value := 1 },
         { occupied := true, readable := true, key := 3, value := 3 }]
      else []
    next_page_id := 11 }

/-- A depth-0 hash table with one full two-slot bucket (page 10) whose
keys 2 and 4 all carry hash bit 0 clear, so that a split on bit 0 moves
nothing: inserting key 6 must retry the split. -/
def c2StayState : HashTableState :=
  { dir := { global_depth := 0, bucket_page_ids := fun _ => 10, local_depths := fun _ => 0 }
    buckets := fun p =>
      if p = 10 then
        [{ occupied := true, readable := true, key := 2, value := 2 },
         { occupied := true, readable := true, key := 4, value := 4 }]
      else []
    next_page_id := 11 }

/-- A global-depth-2 directory whose four entries all have local depth
1: entries 0 and 2 share bucket page 20, entries 1 and 3 share bucket
page 21; bucket 20 is empty, bucket 21 holds a pair.  Merging the
bucket of key 0 must sweep both entries 0 and 2. -/
def c3State : HashTableState :=
  { dir :=
      { global_depth := 2
        bucket_page_ids := fun i => if i % 2 = 0 then 20 else 21
        local_depths := fun _ => 1 }
    buckets := fun p =>
      if p = 21 then [{ occupied := true, readable := true, key := 1, value := 1 }]
      else []
    next_page_id := 22 }

/-- Position `i` of `queue` lies strictly ahead of the transaction's
own request: no position up to and including `i` carries `tid` (the
wounding walk stops at the first request whose id is `tid`). -/
def aheadOfOwn (queue : List LockRequest) (tid : Int) (i : Nat) : Prop :=
  ∀ j : Fin queue.length, (j : Nat) ≤ i → (queue.get j).txn_id ≠ tid

/-- The maximal prefix of a queue strictly ahead of the transaction's
own request: the wounding walk stops at the first request carrying
`tid`. -/
def aheadPrefix (tid : Int) : List LockRequest → List LockRequest
  | [] => []
  | r :: rest => if r.txn_id = tid then [] else r :: aheadPrefix tid rest

/-- The remainder of the queue from the transaction's own request on
(empty when the queue holds no request of `tid`). -/
def fromOwn (tid : Int) : List LockRequest → List LockRequest
  | [] => []
  | r :: rest => if r.txn_id = tid then r :: rest else fromOwn tid rest

/-- The marking the wounding walk applies to one request ahead of the
walker: a not-yet-wounded request of a strictly younger transaction
gets its wounded flag set; every other request is untouched. -/
def woundMark (tid : Int) (r : LockRequest) : LockRequest :=
  if ¬r.wounded ∧ tid < r.txn_id then { r with wounded := true } else r

/-- The transaction ids newly wounded in a list of requests: those of
the not-yet-wounded requests of strictly younger transactions. -/
def newlyWounded (tid : Int) : List LockRequest → List Int
  | [] => []
  | r :: rest =>
    if ¬r.wounded ∧ tid < r.txn_id then r.txn_id :: newlyWounded tid rest
    else newlyWounded tid rest

/-- The sequential invariant of a buffer-pool instance that makes the
replacer safe: the replacer and the free list hold no duplicates, pin
counts never go negative, every frame in the replacer has pin count 0
and fits the pool, free-list frames are not in the replacer, and
page-table frames are not in the free list. -/
structure BPInv (s : BPv1.BPState) : Prop where
  replNodup : s.replacer.Nodup
  freeNodup : s.free_list.Nodup
  pinsNonneg : ∀ f : Nat, 0 ≤ (s.pages f).pin_count
  replLtPool : ∀ f ∈ s.replacer, f < s.pool_size
  replPinsZero : ∀ f ∈ s.replacer, (s.pages f).pin_count = 0
  freeNotRepl : ∀ f ∈ s.free_list, f ∉ s.replacer
  tableNotFree : ∀ (pid : Int) (f : Nat), tableLookup s.page_table pid = some f →
    f ∉ s.free_list

/-! # Theorems -/

/-! ## C9: out-of-range unpin on the LRU replacer -/

/-- C9: for every LRU replacer of capacity `n` and every frame id `f`
with `f < 0` or `f >= n`, `Unpin(f)` is ignored (no element added, size
unchanged); in particular, on a capacity-2 replacer the sequence
`unpin(0); unpin(1); unpin(3)` leaves the size at 2. -/
theorem lru_unpin_out_of_range_ignored :
    (∀ (r : LRUReplacer) (f : Int), f < 0 ∨ (r.num_pages : Int) ≤ f →
      r.Unpin f = r) ∧
    ((((LRUReplacer.mk0 2).Unpin 0).Unpin 1).Unpin 3).Size = 2 := by
  constructor
  · intro r f h
    have hinv : r.IsIdValid f = false := by
      simp only [LRUReplacer.IsIdValid, decide_eq_false_iff_not, not_and_or, not_le, not_lt]
      rcases h with h | h
      · exact Or.inl h
      · exact Or.inr h
    simp [LRUReplacer.Unpin, hinv]
  · decide

/-- Witness for C9: the out-of-range id 3 on a capacity-2 replacer. -/
theorem lru_unpin_out_of_range_ignored_witness :
    ((3 : Int) < 0 ∨ ((LRUReplacer.mk0 2).num_pages : Int) ≤ 3) ∧
      (LRUReplacer.mk0 2).Unpin 3 = LRUReplacer.mk0 2 :=
  ⟨Or.inr (by decide),
    lru_unpin_out_of_range_ignored.1 (LRUReplacer.mk0 2) 3 (Or.inr (by decide))⟩

/-! ## C10: failed unlock still shrinks a growing transaction -/

/-- Helper: the grant-queue scan finds nothing when no request carries
the transaction's id. -/
theorem findGrant_eq_none (queue : List LockRequest) (tid : Int)
    (h : ∀ req ∈ queue, req.txn_id ≠ tid) : FindGrant queue tid = none := by
  induction queue with
  | nil => rfl
  | cons req rest ih =>
    have h1 : req.txn_id ≠ tid := h req (List.mem_cons_self _ _)
    have h2 : FindGrant rest tid = none :=
      ih fun r hr => h r (List.mem_cons_of_mem _ hr)
    simp [FindGrant, h1, h2]

/-- C10: `Unlock(txn, rid)` with no granted lock of `txn` on the queue
returns `false` and leaves the queue and the held-lock sets untouched,
yet a GROWING transaction is still moved to SHRINKING — under every
isolation level, because the shared-under-READ_COMMITTED exemption
cannot apply when no grant was found. -/
theorem unlock_without_grant_shrinks :
    ∀ (txn : Transaction) (q : LockRequestQueue) (rid : RID),
      (∀ req ∈ q.grant_queue, req.txn_id ≠ txn.txn_id) →
      (Unlock txn q rid).1 = false ∧
      (Unlock txn q rid).2.2 = q ∧
      (Unlock txn q rid).2.1.shared_lock_set = txn.shared_lock_set ∧
      (Unlock txn q rid).2.1.exclusive_lock_set = txn.exclusive_lock_set ∧
      (txn.state = TransactionState.GROWING →
        (Unlock txn q rid).2.1.state = TransactionState.SHRINKING) ∧
      (txn.state ≠ TransactionState.GROWING → (Unlock txn q rid).2.1 = txn) := by
  intro txn q rid h
  have hf := findGrant_eq_none q.grant_queue txn.txn_id h
  by_cases hs : txn.state = TransactionState.GROWING <;>
    simp [Unlock, hf, UnlockShrink, hs]

/-- Witness for C10: transaction 5, GROWING under REPEATABLE_READ,
unlocking on an empty queue. -/
theorem unlock_without_grant_shrinks_witness :
    (Unlock (Transaction.mk 5 TransactionState.GROWING
        IsolationLevel.REPEATABLE_READ [] [])
      (LockRequestQueue.mk [] [] (-1)) (0, 0)).1 = false ∧
    (Unlock (Transaction.mk 5 TransactionState.GROWING
        IsolationLevel.REPEATABLE_READ [] [])
      (LockRequestQueue.mk [] [] (-1)) (0, 0)).2.1.state =
      TransactionState.SHRINKING := by
  have h := unlock_without_grant_shrinks
    (Transaction.mk 5 TransactionState.GROWING
      IsolationLevel.REPEATABLE_READ [] [])
    (LockRequestQueue.mk [] [] (-1)) (0, 0)
    (by intro req hreq; simp at hreq)
  exact ⟨h.1, h.2.2.2.2.1 rfl⟩

/-! ## C7: the lock-acquisition error surface -/

/-- C7: `LockShared` / `LockExclusive` / `LockUpgrade` throw DEADLOCK
when the transaction is already ABORTED; when it is SHRINKING they set
it ABORTED and throw LOCK_ON_SHRINKING; `LockShared` under
READ_UNCOMMITTED sets ABORTED and throws
LOCKSHARED_ON_READ_UNCOMMITTED; and a request for a lock already held
in the same or stronger mode returns true as a no-op before
`GetRequestQueue` is ever called (the `reentrant` outcome), so the
request queue is untouched. -/
theorem lock_acquire_error_surface :
    ∀ (txn : Transaction) (rid : RID),
      (txn.state = TransactionState.ABORTED →
        LockSharedEntry txn rid = LockAcqOutcome.thrown AbortReason.DEADLOCK txn ∧
        LockExclusiveEntry txn rid = LockAcqOutcome.thrown AbortReason.DEADLOCK txn ∧
        LockUpgradeEntry txn rid = LockAcqOutcome.thrown AbortReason.DEADLOCK txn) ∧
      (txn.state = TransactionState.SHRINKING →
        LockSharedEntry txn rid = LockAcqOutcome.thrown AbortReason.LOCK_ON_SHRINKING
          { txn with state := TransactionState.ABORTED } ∧
        LockExclusiveEntry txn rid = LockAcqOutcome.thrown AbortReason.LOCK_ON_SHRINKING
          { txn with state := TransactionState.ABORTED } ∧
        LockUpgradeEntry txn rid = LockAcqOutcome.thrown AbortReason.LOCK_ON_SHRINKING
          { txn with state := TransactionState.ABORTED }) ∧
      (txn.state = TransactionState.GROWING →
        txn.isolation_level = IsolationLevel.READ_UNCOMMITTED →
        LockSharedEntry txn rid =
          LockAcqOutcome.thrown AbortReason.LOCKSHARED_ON_READ_UNCOMMITTED
            { txn with state := TransactionState.ABORTED }) ∧
      (txn.state = TransactionState.GROWING →
        txn.isolation_level ≠ IsolationLevel.READ_UNCOMMITTED →
        (rid ∈ txn.shared_lock_set ∨ rid ∈ txn.exclusive_lock_set) →
        LockSharedEntry txn rid = LockAcqOutcome.reentrant txn) ∧
      (txn.state = TransactionState.GROWING → rid ∈ txn.exclusive_lock_set →
        LockExclusiveEntry txn rid = LockAcqOutcome.reentrant txn ∧
        LockUpgradeEntry txn rid = LockAcqOutcome.reentrant txn) := by
  intro txn rid
  refine ⟨?_, ?_, ?_, ?_, ?_⟩
  · intro h
    refine ⟨?_, ?_, ?_⟩ <;>
      simp [LockSharedEntry, LockExclusiveEntry, LockUpgradeEntry, SanityCheck, h]
  · intro h
    refine ⟨?_, ?_, ?_⟩ <;>
      simp [LockSharedEntry, LockExclusiveEntry, LockUpgradeEntry, SanityCheck, h]
  · intro h hiso
    simp [LockSharedEntry, SanityCheck, h, hiso]
  · intro h hiso hmem
    simp [LockSharedEntry, SanityCheck, h, hiso, hmem]
  · intro h hmem
    constructor <;> simp [LockExclusiveEntry, LockUpgradeEntry, SanityCheck, h, hmem]

/-- Witness for C7: an already-ABORTED transaction throws DEADLOCK out
of `LockShared`. -/
theorem lock_acquire_error_surface_witness :
    LockSharedEntry
      (Transaction.mk 1 TransactionState.ABORTED
        IsolationLevel.REPEATABLE_READ [] []) (0, 0) =
      LockAcqOutcome.thrown AbortReason.DEADLOCK
        (Transaction.mk 1 TransactionState.ABORTED
          IsolationLevel.REPEATABLE_READ [] []) :=
  ((lock_acquire_error_surface
    (Transaction.mk 1 TransactionState.ABORTED
      IsolationLevel.REPEATABLE_READ [] []) (0, 0)).1 rfl).1

/-! ## C6: duplicate insert at the bucket level -/

/-- Counterexample for C6 as stated: `c6Bucket` stores the readable
pair `(5, 7)` in slot 1, yet `Insert(5, 7)` returns true — it reuses
the tombstone in slot 0 before ever seeing the duplicate, and the pair
is then stored twice (a later `GetValue 5` returns `[7, 7]`). -/
theorem bucket_insert_duplicate_counterexample :
    (∃ s ∈ c6Bucket, s.occupied = true ∧ s.readable = true ∧ s.key = 5 ∧ s.value = 7) ∧
    (BucketPage.Insert c6Bucket 5 7).1 = true ∧
    (BucketPage.Insert c6Bucket 5 7).2 ≠ c6Bucket ∧
    BucketPage.GetValue (BucketPage.Insert c6Bucket 5 7).2 5 = [7, 7] := by
  refine ⟨⟨c6Bucket.get ⟨1, by decide⟩, by decide, by decide⟩, by decide, by decide, by decide⟩

/-- C6 as amended: bucket `Insert(key, value)` returns false and
leaves the bucket unchanged for a pair already stored in a readable
slot, provided every slot before that slot is occupied and readable
(no free slot or tombstone precedes it); when an earlier slot is free
or a tombstone, `Insert` instead stores the pair there again and
returns true, as the counterexample shows. -/
theorem bucket_insert_duplicate_no_hole_before :
    ∀ (pre post : BucketPage) (s : BucketSlot) (key value : Nat),
      (∀ t ∈ pre, t.occupied = true ∧ t.readable = true) →
      s.occupied = true → s.readable = true → s.key = key → s.value = value →
      BucketPage.Insert (pre ++ s :: post) key value = (false, pre ++ s :: post) := by
  intro pre post s key value hpre hocc hread hkey hval
  induction pre with
  | nil =>
    simp [BucketPage.Insert, hocc, hread, hkey, hval]
  | cons t rest ih =>
    have ht := hpre t (List.mem_cons_self _ _)
    have hrest : ∀ u ∈ rest, u.occupied = true ∧ u.readable = true :=
      fun u hu => hpre u (List.mem_cons_of_mem _ hu)
    by_cases hdup : t.key = key ∧ t.value = value
    · simp [BucketPage.Insert, ht.1, ht.2, hdup]
    · simp [BucketPage.Insert, ht.1, ht.2, hdup, ih hrest]

/-- Witness for C6 (amended): a duplicate of `(5, 7)` behind a single
fully readable slot is rejected and the bucket is unchanged. -/
theorem bucket_insert_duplicate_no_hole_before_witness :
    BucketPage.Insert
      [{ occupied := true, readable := true, key := 3, value := 4 },
       { occupied := true, readable := true, key := 5, value := 7 }] 5 7 =
      (false,
       [{ occupied := true, readable := true, key := 3, value := 4 },
        { occupied := true, readable := true, key := 5, value := 7 }]) :=
  bucket_insert_duplicate_no_hole_before
    [{ occupied := true, readable := true, key := 3, value := 4 }] []
    { occupied := true, readable := true, key := 5, value := 7 } 5 7
    (by decide) rfl rfl rfl rfl

/-! ## C1: unpin on a pinned resident page -/

/-- Counterexample for C1 as stated: in `c1State`, page 0 is resident
with pin count 1 and `is_dirty` set, yet `UnpinPgImp(0, false)` clears
the dirty flag instead of leaving it set — the snapshot assigns
`is_dirty_ = is_dirty` unconditionally. -/
theorem unpin_false_clears_dirty_counterexample :
    tableLookup c1State.page_table 0 = some 0 ∧
    (c1State.pages 0).pin_count = 1 ∧
    (c1State.pages 0).is_dirty = true ∧
    (BPv1.UnpinPgImp c1State 0 false).1 = true ∧
    ((BPv1.UnpinPgImp c1State 0 false).2.pages 0).is_dirty = false := by
  refine ⟨rfl, rfl, rfl, ?_, ?_⟩ <;> decide

/-- C1 as amended: for a resident page with pin count at least 1,
`UnpinPgImp(p, is_dirty)` returns true and decrements the pin count;
it assigns the argument to both `is_dirty` and `just_dirtied` — so
with `is_dirty = true` both flags are set, and with `is_dirty = false`
both flags are cleared (a previously set dirty flag does not survive);
when the pin count reaches 0 the frame is inserted into the replacer
(and the replacer is untouched otherwise). -/
theorem unpin_decrements_and_overwrites_dirty :
    ∀ (s : BPv1.BPState) (pid : Int) (f : Nat) (d : Bool),
      tableLookup s.page_table pid = some f →
      1 ≤ (s.pages f).pin_count →
      (BPv1.UnpinPgImp s pid d).1 = true ∧
      ((BPv1.UnpinPgImp s pid d).2.pages f).pin_count = (s.pages f).pin_count - 1 ∧
      ((BPv1.UnpinPgImp s pid d).2.pages f).is_dirty = d ∧
      ((BPv1.UnpinPgImp s pid d).2.pages f).just_dirtied = d ∧
      ((s.pages f).pin_count = 1 → f < s.pool_size → f ∉ s.replacer →
        f ∈ (BPv1.UnpinPgImp s pid d).2.replacer) ∧
      ((s.pages f).pin_count ≠ 1 →
        (BPv1.UnpinPgImp s pid d).2.replacer = s.replacer) := by
  intro s pid f d hlook hpin
  have hnot : ¬(s.pages f).pin_count ≤ 0 := by omega
  by_cases h1 : (s.pages f).pin_count - 1 = 0
  · have huz : (s.pages f).pin_count = 1 := by omega
    refine ⟨?_, ?_, ?_, ?_, ?_, ?_⟩
    · simp [BPv1.UnpinPgImp, hlook, hnot, h1]
    · simp [BPv1.UnpinPgImp, hlook, hnot, h1, BPv1.setPage]
    · simp [BPv1.UnpinPgImp, hlook, hnot, h1, BPv1.setPage]
    · simp [BPv1.UnpinPgImp, hlook, hnot, h1, BPv1.setPage]
    · intro _ hlt habs
      simp [BPv1.UnpinPgImp, hlook, hnot, h1, BPv1.setPage, replUnpin, hlt, habs]
    · intro hne
      exact absurd huz hne
  · refine ⟨?_, ?_, ?_, ?_, ?_, ?_⟩
    · simp [BPv1.UnpinPgImp, hlook, hnot, h1]
    · simp [BPv1.UnpinPgImp, hlook, hnot, h1, BPv1.setPage]
    · simp [BPv1.UnpinPgImp, hlook, hnot, h1, BPv1.setPage]
    · simp [BPv1.UnpinPgImp, hlook, hnot, h1, BPv1.setPage]
    · intro hp1
      exfalso
      omega
    · intro _
      simp [BPv1.UnpinPgImp, hlook, hnot, h1, BPv1.setPage]

/-- Witness for C1 (amended): unpinning page 0 of `c1State` with
`is_dirty = true`. -/
theorem unpin_decrements_and_overwrites_dirty_witness :
    (BPv1.UnpinPgImp c1State 0 true).1 = true ∧
    ((BPv1.UnpinPgImp c1State 0 true).2.pages 0).pin_count = 0 ∧
    ((BPv1.UnpinPgImp c1State 0 true).2.pages 0).is_dirty = true ∧
    0 ∈ (BPv1.UnpinPgImp c1State 0 true).2.replacer := by
  have h := unpin_decrements_and_overwrites_dirty c1State 0 0 true rfl (by decide)
  exact ⟨h.1, h.2.1, h.2.2.1, h.2.2.2.2.1 rfl (by decide) (by decide)⟩

/-! ## C5: delete on the buffer pool (header snapshot) -/

/-- Helper: after erasing `pid` the page table no longer resolves
`pid`. -/
theorem tableLookup_erase_self (t : List (Int × Nat)) (pid : Int) :
    tableLookup (tableErase t pid) pid = none := by
  induction t with
  | nil => rfl
  | cons pr rest ih =>
    by_cases h : pr.1 = pid
    · simpa [tableErase, List.filter, h] using ih
    · simpa [tableErase, List.filter, tableLookup, h] using ih

/-- C5: on a resident page with pin count > 0, `DeletePgImp` fails and
changes nothing; on a resident page with pin count 0 it removes the
page-table entry, resets the frame metadata (page id INVALID, clean,
pin count 0), appends the frame to the free list and succeeds; and
`DeallocatePage` is a no-op, so the page id is never recycled. -/
theorem delete_page_behavior :
    ∀ (s : BPv2.BPState) (pid : Int) (f : Nat),
      tableLookup s.page_table pid = some f →
      (0 < (s.pages f).pin_count → BPv2.DeletePgImp s pid = (false, s)) ∧
      ((s.pages f).pin_count = 0 →
        (BPv2.DeletePgImp s pid).1 = true ∧
        tableLookup (BPv2.DeletePgImp s pid).2.page_table pid = none ∧
        (BPv2.DeletePgImp s pid).2.pages f =
          { page_id := -1, is_dirty := false, pin_count := 0 } ∧
        (BPv2.DeletePgImp s pid).2.free_list = s.free_list ++ [f]) ∧
      BPv2.DeallocatePage s pid = s := by
  intro s pid f hlook
  refine ⟨?_, ?_, rfl⟩
  · intro hp
    simp [BPv2.DeletePgImp, hlook, hp]
  · intro hp0
    have hnot : ¬0 < (s.pages f).pin_count := by omega
    refine ⟨?_, ?_, ?_, ?_⟩ <;>
      simp [BPv2.DeletePgImp, hlook, hnot, BPv2.setPage, BPv2.DeallocatePage, hp0,
        tableLookup_erase_self]

/-- Witness for C5: a one-frame pool holding page 3 unpinned in frame
0; deleting page 3 succeeds, resets the frame and frees it. -/
theorem delete_page_behavior_witness :
    (BPv2.DeletePgImp
      (BPv2.BPState.mk 1
        (fun _ => BPv2.Page.mk 3 0 true) [(3, 0)] [0] [] 4) 3).1 = true ∧
    (BPv2.DeletePgImp
      (BPv2.BPState.mk 1
        (fun _ => BPv2.Page.mk 3 0 true) [(3, 0)] [0] [] 4) 3).2.pages 0 =
      BPv2.Page.mk (-1) 0 false ∧
    (BPv2.DeletePgImp
      (BPv2.BPState.mk 1
        (fun _ => BPv2.Page.mk 3 0 true) [(3, 0)] [0] [] 4) 3).2.free_list = [0] := by
  have h := delete_page_behavior
    (BPv2.BPState.mk 1 (fun _ => BPv2.Page.mk 3 0 true) [(3, 0)] [0] [] 4) 3 0 rfl
  have h2 := (h.2.1) rfl
  exact ⟨h2.1, h2.2.2.1, h2.2.2.2⟩



/-! ## C8: wound-wait wounds exactly the strictly younger requests ahead -/

/-- Helper: closed form of one wounding walk.  The queue splits at the
walker's own request into `aheadPrefix ++ fromOwn`; the walk rewrites
exactly the prefix by `woundMark` (so a request with a smaller or equal
id, or one already wounded, is never touched), sets ABORTED exactly the
newly wounded transactions, and counts them. -/
theorem woundRequestsInQueue_spec :
    ∀ (queue : List LockRequest) (tid : Int) (ts : Int → TransactionState),
      (WoundRequestsInQueue queue tid ts).1 =
        (aheadPrefix tid queue).map (woundMark tid) ++ fromOwn tid queue ∧
      (∀ j : Int,
        (WoundRequestsInQueue queue tid ts).2.1 j = TransactionState.ABORTED ↔
          (ts j = TransactionState.ABORTED ∨ j ∈ newlyWounded tid (aheadPrefix tid queue))) ∧
      (WoundRequestsInQueue queue tid ts).2.2 =
        (newlyWounded tid (aheadPrefix tid queue)).length := by
  intro queue tid
  induction queue with
  | nil =>
    intro ts
    simp [WoundRequestsInQueue, aheadPrefix, fromOwn, newlyWounded]
  | cons req rest ih =>
    intro ts
    by_cases hown : req.txn_id = tid
    · simp [WoundRequestsInQueue, aheadPrefix, fromOwn, newlyWounded, hown]
    · by_cases hw : ¬req.wounded ∧ tid < req.txn_id
      · have ih1 := ih fun i => if i = req.txn_id then TransactionState.ABORTED else ts i
        refine ⟨?_, ?_, ?_⟩
        · simp [WoundRequestsInQueue, aheadPrefix, fromOwn, woundMark, hown, hw, ih1.1]
        · intro j
          have h2 := ih1.2.1 j
          simp only [WoundRequestsInQueue] at h2 ⊢
          simp [aheadPrefix, newlyWounded, hown, hw]
          rw [h2]
          by_cases hj : j = req.txn_id <;> simp [hj]
        · have h3 := ih1.2.2
          simp only [WoundRequestsInQueue] at h3 ⊢
          simp [aheadPrefix, newlyWounded, hown, hw, h3]
      · have hw2 : ¬(req.wounded = false ∧ tid < req.txn_id) := by
          simpa using hw
        have ih1 := ih ts
        refine ⟨?_, ?_, ?_⟩
        · simp [WoundRequestsInQueue, aheadPrefix, fromOwn, woundMark, hown, hw2, ih1.1]
        · intro j
          have h2 := ih1.2.1 j
          simp only [WoundRequestsInQueue] at h2 ⊢
          simp [aheadPrefix, newlyWounded, hown, hw2]
          exact h2
        · have h3 := ih1.2.2
          simp only [WoundRequestsInQueue] at h3 ⊢
          simp [aheadPrefix, newlyWounded, hown, hw2, h3]

/-- C8: the wounding step of lock acquisition by transaction `tid`
marks as wounded (and sets ABORTED) exactly the not-yet-wounded
requests positioned ahead of `tid`'s own request, in both the granted
and the wait queue, whose transaction id is strictly greater than
`tid`; requests with a smaller or equal id are never wounded
(`woundMark` only sets the flag when `tid < txn_id`), and only the
wait-queue wound count is reported. -/
theorem try_wound_younger_requests_spec :
    ∀ (q : LockRequestQueue) (tid : Int) (ts : Int → TransactionState),
      (TryWoundYoungerRequests q tid ts).1.grant_queue =
        (aheadPrefix tid q.grant_queue).map (woundMark tid) ++ fromOwn tid q.grant_queue ∧
      (TryWoundYoungerRequests q tid ts).1.wait_queue =
        (aheadPrefix tid q.wait_queue).map (woundMark tid) ++ fromOwn tid q.wait_queue ∧
      (TryWoundYoungerRequests q tid ts).1.upgrading = q.upgrading ∧
      (∀ j : Int,
        (TryWoundYoungerRequests q tid ts).2.1 j = TransactionState.ABORTED ↔
          (ts j = TransactionState.ABORTED ∨
            j ∈ newlyWounded tid (aheadPrefix tid q.grant_queue) ∨
            j ∈ newlyWounded tid (aheadPrefix tid q.wait_queue))) ∧
      (TryWoundYoungerRequests q tid ts).2.2 =
        (newlyWounded tid (aheadPrefix tid q.wait_queue)).length := by
  intro q tid ts
  have hg := woundRequestsInQueue_spec q.grant_queue tid ts
  have hw := woundRequestsInQueue_spec q.wait_queue tid (WoundRequestsInQueue q.grant_queue tid ts).2.1
  refine ⟨?_, ?_, rfl, ?_, ?_⟩
  · simpa [TryWoundYoungerRequests] using hg.1
  · simpa [TryWoundYoungerRequests] using hw.1
  · intro j
    have h1 := hg.2.1 j
    have h2 := hw.2.1 j
    simp only [TryWoundYoungerRequests]
    rw [h2, h1]
    tauto
  · simpa [TryWoundYoungerRequests] using hw.2.2

/-! ## C3: merge rewrites every matching directory index -/

/-- Helper: `(i << m) | r` is `i * 2^m + r` when `r` fits in the low
`m` bits. -/
theorem shiftLeft_lor_eq_add (i m r : Nat) (h : r < 2 ^ m) :
    (i <<< m) ||| r = i * 2 ^ m + r := by
  rw [Nat.shiftLeft_eq, mul_comm]
  exact (Nat.mul_add_lt_is_or h i).symm

/-- Helper: one more sweep iteration. -/
theorem mergeSweep_succ (dir : HashTableDirectoryPage) (k nd bidx mask : Nat) (pid : Int) :
    MergeSweep dir (k + 1) nd bidx mask pid =
      ((MergeSweep dir k nd bidx mask pid).DecrLocalDepth
        ((k <<< nd) ||| (bidx &&& mask))).SetBucketPageId
        ((k <<< nd) ||| (bidx &&& mask)) pid := by
  simp [MergeSweep, List.range_succ]

/-- Helper: pointwise effect of the first `k` sweep iterations: the
entries of the form `i * 2^nd + (bidx mod 2^nd)` with `i < k` are
decremented and redirected; every other entry is untouched. -/
theorem mergeSweep_spec (dir : HashTableDirectoryPage) (nd bidx mask : Nat) (pid : Int)
    (hmask : mask = 2 ^ nd - 1) :
    ∀ (k idx : Nat),
      ((∃ i, i < k ∧ i * 2 ^ nd + bidx % 2 ^ nd = idx) →
        (MergeSweep dir k nd bidx mask pid).local_depths idx = dir.local_depths idx - 1 ∧
        (MergeSweep dir k nd bidx mask pid).bucket_page_ids idx = pid) ∧
      ((¬∃ i, i < k ∧ i * 2 ^ nd + bidx % 2 ^ nd = idx) →
        (MergeSweep dir k nd bidx mask pid).local_depths idx = dir.local_depths idx ∧
        (MergeSweep dir k nd bidx mask pid).bucket_page_ids idx = dir.bucket_page_ids idx) := by
  intro k
  induction k with
  | zero =>
    intro idx
    constructor
    · rintro ⟨i, hi, -⟩
      omega
    · intro _
      simp [MergeSweep]
  | succ k ih =>
    intro idx
    have htgt : (k <<< nd) ||| (bidx &&& mask) = k * 2 ^ nd + bidx % 2 ^ nd := by
      rw [hmask, Nat.and_pow_two_sub_one_eq_mod]
      exact shiftLeft_lor_eq_add k nd _ (Nat.mod_lt _ (Nat.two_pow_pos nd))
    rw [mergeSweep_succ, htgt]
    by_cases hidx : k * 2 ^ nd + bidx % 2 ^ nd = idx
    · have hnot : ¬∃ i, i < k ∧ i * 2 ^ nd + bidx % 2 ^ nd = idx := by
        rintro ⟨i, hik, hie⟩
        have him : i * 2 ^ nd = k * 2 ^ nd := by omega
        have : i = k := Nat.eq_of_mul_eq_mul_right (Nat.two_pow_pos nd) him
        omega
      have hprev := (ih idx).2 hnot
      constructor
      · intro _
        simp [HashTableDirectoryPage.DecrLocalDepth, HashTableDirectoryPage.SetBucketPageId,
          hidx, hprev.1]
      · intro hno
        exact absurd ⟨k, Nat.lt_succ_self k, hidx⟩ hno
    · have hne : ¬idx = k * 2 ^ nd + bidx % 2 ^ nd := fun he => hidx he.symm
      constructor
      · rintro ⟨i, hik, hie⟩
        have hik2 : i < k := by
          rcases Nat.lt_succ_iff_lt_or_eq.mp hik with h | h
          · exact h
          · subst h
            exact absurd hie hidx
        have hprev := (ih idx).1 ⟨i, hik2, hie⟩
        simp [HashTableDirectoryPage.DecrLocalDepth, HashTableDirectoryPage.SetBucketPageId,
          hne, hprev.1, hprev.2]
      · intro hno
        have hnot : ¬∃ i, i < k ∧ i * 2 ^ nd + bidx % 2 ^ nd = idx := by
          rintro ⟨i, hik, hie⟩
          exact hno ⟨i, Nat.lt_succ_of_lt hik, hie⟩
        have hprev := (ih idx).2 hnot
        simp [HashTableDirectoryPage.DecrLocalDepth, HashTableDirectoryPage.SetBucketPageId,
          hne, hprev.1, hprev.2]

/-- C3: whenever a merge proceeds (local depth positive, the bucket
still empty on re-check, split image of equal local depth), it
decrements the local depth of every directory index whose low
`local_depth - 1` bits match the merged bucket — possibly many
entries, not just the index pair — redirecting each of them to the
split image's bucket page, and touches no other directory entry. -/
theorem merge_full_sweep :
    ∀ (h : Nat → Nat) (st : HashTableState) (key : Nat) (bidx ld sidx : Nat),
      bidx = KeyToDirectoryIndex h st.dir key →
      ld = st.dir.GetLocalDepth bidx →
      sidx = bidx ^^^ 2 ^ (ld - 1) →
      0 < ld →
      ld ≤ st.dir.global_depth →
      BucketPage.IsEmpty (st.buckets (st.dir.GetBucketPageId bidx)) = true →
      st.dir.GetLocalDepth sidx = ld →
      (MergeStep h st key).has_modified = true ∧
      (∀ idx : Nat, idx < 2 ^ st.dir.global_depth →
        (idx % 2 ^ (ld - 1) = bidx % 2 ^ (ld - 1) →
          (MergeStep h st key).state.dir.local_depths idx = st.dir.local_depths idx - 1 ∧
          (MergeStep h st key).state.dir.bucket_page_ids idx =
            st.dir.GetBucketPageId sidx) ∧
        (idx % 2 ^ (ld - 1) ≠ bidx % 2 ^ (ld - 1) →
          (MergeStep h st key).state.dir.local_depths idx = st.dir.local_depths idx ∧
          (MergeStep h st key).state.dir.bucket_page_ids idx = st.dir.bucket_page_ids idx)) := by
  intro h st key bidx ld sidx hbidx hld hsidx h0 hle hempty hsame
  subst hsidx
  subst hld
  subst hbidx
  have hb : st.dir.GetLocalHighBit (KeyToDirectoryIndex h st.dir key) >>> 1 =
      2 ^ (st.dir.GetLocalDepth (KeyToDirectoryIndex h st.dir key) - 1) := by
    have h0x : 0 < st.dir.local_depths (KeyToDirectoryIndex h st.dir key) := h0
    simp only [HashTableDirectoryPage.GetLocalHighBit, HashTableDirectoryPage.GetLocalDepth]
    generalize st.dir.local_depths (KeyToDirectoryIndex h st.dir key) = L at h0x ⊢
    obtain ⟨M, rfl⟩ : ∃ M, L = M + 1 := ⟨L - 1, by omega⟩
    rw [Nat.shiftLeft_eq, one_mul, Nat.shiftRight_eq_div_pow, pow_one, pow_succ,
      Nat.mul_div_cancel _ (by omega : (0 : Nat) < 2)]
    simp
  have hres : MergeStep h st key =
      { state :=
          { st with dir :=
              (if (MergeSweep st.dir
                  (2 ^ (st.dir.global_depth -
                    (st.dir.GetLocalDepth (KeyToDirectoryIndex h st.dir key) - 1)))
                  (st.dir.GetLocalDepth (KeyToDirectoryIndex h st.dir key) - 1)
                  (KeyToDirectoryIndex h st.dir key)
                  (2 ^ (st.dir.GetLocalDepth (KeyToDirectoryIndex h st.dir key) - 1) - 1)
                  (st.dir.GetBucketPageId
                    (KeyToDirectoryIndex h st.dir key ^^^
                      2 ^ (st.dir.GetLocalDepth (KeyToDirectoryIndex h st.dir key) - 1)))).CanShrink then
                (MergeSweep st.dir
                  (2 ^ (st.dir.global_depth -
                    (st.dir.GetLocalDepth (KeyToDirectoryIndex h st.dir key) - 1)))
                  (st.dir.GetLocalDepth (KeyToDirectoryIndex h st.dir key) - 1)
                  (KeyToDirectoryIndex h st.dir key)
                  (2 ^ (st.dir.GetLocalDepth (KeyToDirectoryIndex h st.dir key) - 1) - 1)
                  (st.dir.GetBucketPageId
                    (KeyToDirectoryIndex h st.dir key ^^^
                      2 ^ (st.dir.GetLocalDepth (KeyToDirectoryIndex h st.dir key) - 1)))).DecrGlobalDepth
              else
                (MergeSweep st.dir
                  (2 ^ (st.dir.global_depth -
                    (st.dir.GetLocalDepth (KeyToDirectoryIndex h st.dir key) - 1)))
                  (st.dir.GetLocalDepth (KeyToDirectoryIndex h st.dir key) - 1)
                  (KeyToDirectoryIndex h st.dir key)
                  (2 ^ (st.dir.GetLocalDepth (KeyToDirectoryIndex h st.dir key) - 1) - 1)
                  (st.dir.GetBucketPageId
                    (KeyToDirectoryIndex h st.dir key ^^^
                      2 ^ (st.dir.GetLocalDepth (KeyToDirectoryIndex h st.dir key) - 1))))) }
        has_modified := true
        need_merge_again :=
          BucketPage.IsEmpty (st.buckets
            (st.dir.GetBucketPageId
              (KeyToDirectoryIndex h st.dir key ^^^
                2 ^ (st.dir.GetLocalDepth (KeyToDirectoryIndex h st.dir key) - 1)))) } := by
    rw [MergeStep]
    rw [if_neg (by omega), if_neg (by simp [hempty]), hb, if_neg (by simp [hsame])]
  refine ⟨by rw [hres], ?_⟩
  intro idx hidx
  have hnd : st.dir.GetLocalDepth (KeyToDirectoryIndex h st.dir key) - 1 ≤
      st.dir.global_depth := by omega
  have hpow : 2 ^ (st.dir.global_depth -
      (st.dir.GetLocalDepth (KeyToDirectoryIndex h st.dir key) - 1)) *
      2 ^ (st.dir.GetLocalDepth (KeyToDirectoryIndex h st.dir key) - 1) =
      2 ^ st.dir.global_depth := by
    rw [← pow_add]
    congr 1
    omega
  have hspec := mergeSweep_spec st.dir
    (st.dir.GetLocalDepth (KeyToDirectoryIndex h st.dir key) - 1)
    (KeyToDirectoryIndex h st.dir key)
    (2 ^ (st.dir.GetLocalDepth (KeyToDirectoryIndex h st.dir key) - 1) - 1)
    (st.dir.GetBucketPageId
      (KeyToDirectoryIndex h st.dir key ^^^
        2 ^ (st.dir.GetLocalDepth (KeyToDirectoryIndex h st.dir key) - 1)))
    rfl
    (2 ^ (st.dir.global_depth -
      (st.dir.GetLocalDepth (KeyToDirectoryIndex h st.dir key) - 1)))
    idx
  have hdirfields :
      (MergeStep h st key).state.dir.local_depths =
        (MergeSweep st.dir
          (2 ^ (st.dir.global_depth -
            (st.dir.GetLocalDepth (KeyToDirectoryIndex h st.dir key) - 1)))
          (st.dir.GetLocalDepth (KeyToDirectoryIndex h st.dir key) - 1)
          (KeyToDirectoryIndex h st.dir key)
          (2 ^ (st.dir.GetLocalDepth (KeyToDirectoryIndex h st.dir key) - 1) - 1)
          (st.dir.GetBucketPageId
            (KeyToDirectoryIndex h st.dir key ^^^
              2 ^ (st.dir.GetLocalDepth (KeyToDirectoryIndex h st.dir key) - 1)))).local_depths ∧
      (MergeStep h st key).state.dir.bucket_page_ids =
        (MergeSweep st.dir
          (2 ^ (st.dir.global_depth -
            (st.dir.GetLocalDepth (KeyToDirectoryIndex h st.dir key) - 1)))
          (st.dir.GetLocalDepth (KeyToDirectoryIndex h st.dir key) - 1)
          (KeyToDirectoryIndex h st.dir key)
          (2 ^ (st.dir.GetLocalDepth (KeyToDirectoryIndex h st.dir key) - 1) - 1)
          (st.dir.GetBucketPageId
            (KeyToDirectoryIndex h st.dir key ^^^
              2 ^ (st.dir.GetLocalDepth (KeyToDirectoryIndex h st.dir key) - 1)))).bucket_page_ids := by
    rw [hres]
    constructor <;> (split <;> simp [HashTableDirectoryPage.DecrGlobalDepth])
  constructor
  · intro hmatch
    have hex : ∃ i, i < 2 ^ (st.dir.global_depth -
        (st.dir.GetLocalDepth (KeyToDirectoryIndex h st.dir key) - 1)) ∧
        i * 2 ^ (st.dir.GetLocalDepth (KeyToDirectoryIndex h st.dir key) - 1) +
          KeyToDirectoryIndex h st.dir key %
            2 ^ (st.dir.GetLocalDepth (KeyToDirectoryIndex h st.dir key) - 1) = idx := by
      refine ⟨idx / 2 ^ (st.dir.GetLocalDepth (KeyToDirectoryIndex h st.dir key) - 1), ?_, ?_⟩
      · rw [Nat.div_lt_iff_lt_mul (Nat.two_pow_pos _), hpow]
        exact hidx
      · rw [← hmatch]
        exact Nat.div_add_mod' idx _
    have := hspec.1 hex
    rw [hdirfields.1, hdirfields.2]
    exact this
  · intro hmatch
    have hnex : ¬∃ i, i < 2 ^ (st.dir.global_depth -
        (st.dir.GetLocalDepth (KeyToDirectoryIndex h st.dir key) - 1)) ∧
        i * 2 ^ (st.dir.GetLocalDepth (KeyToDirectoryIndex h st.dir key) - 1) +
          KeyToDirectoryIndex h st.dir key %
            2 ^ (st.dir.GetLocalDepth (KeyToDirectoryIndex h st.dir key) - 1) = idx := by
      rintro ⟨i, -, hie⟩
      apply hmatch
      rw [← hie, add_comm, Nat.add_mul_mod_self_right,
        Nat.mod_mod_of_dvd _ (dvd_refl _)]
    have := hspec.2 hnex
    rw [hdirfields.1, hdirfields.2]
    exact this

/-- Witness for C3: merging key 0's emptied bucket in `c3State` sweeps
all four directory entries of its class, in particular entry 2 (which
is neither of the pair 0 / 1). -/
theorem merge_full_sweep_witness :
    (MergeStep id c3State 0).has_modified = true ∧
    (MergeStep id c3State 0).state.dir.local_depths 2 = 0 ∧
    (MergeStep id c3State 0).state.dir.bucket_page_ids 2 = 21 := by
  have h := merge_full_sweep id c3State 0 0 1 1 (by decide) rfl (by decide)
    (by decide) (by decide) (by decide) (by decide)
  have h2 := (h.2 2 (by decide)).1 (by decide)
  exact ⟨h.1, h2.1, h2.2⟩

/-! ## C2: split-insert retry and its failure modes -/

/-- Helper: when bucket `Insert` returns false, either a readable slot
already holds the pair, or every slot was readable (the scan reached
the end of a full bucket). -/
theorem bucketInsert_false_cases :
    ∀ (b : BucketPage) (key value : Nat),
      (BucketPage.Insert b key value).1 = false →
      (∃ s ∈ b, s.readable = true ∧ s.key = key ∧ s.value = value) ∨
      (∀ s ∈ b, s.readable = true) := by
  intro b key value
  induction b with
  | nil =>
    intro _
    exact Or.inr fun s hs => absurd hs (List.not_mem_nil s)
  | cons s rest ih =>
    intro hf
    by_cases hocc : s.occupied = true
    · by_cases hread : s.readable = true
      · by_cases hdup : s.key = key ∧ s.value = value
        · exact Or.inl ⟨s, List.mem_cons_self _ _, hread, hdup⟩
        · have hrest : (BucketPage.Insert rest key value).1 = false := by
            simpa [BucketPage.Insert, hocc, hread, hdup] using hf
          rcases ih hrest with ⟨t, ht, htr⟩ | hall
          · exact Or.inl ⟨t, List.mem_cons_of_mem _ ht, htr⟩
          · refine Or.inr fun t ht => ?_
            rcases List.mem_cons.mp ht with rfl | ht2
            · exact hread
            · exact hall t ht2
      · simp [BucketPage.Insert, hocc, hread] at hf
    · simp [BucketPage.Insert, hocc] at hf

/-- Helper: every pair moved by `BucketSplit` comes from a slot of the
source bucket. -/
theorem bucketSplitRun_moved_mem :
    ∀ (h : Nat → Nat) (hb t : Nat) (b : BucketPage) (k v : Nat),
      (k, v) ∈ (BucketSplitRun h hb t b).2 → ∃ s ∈ b, s.key = k ∧ s.value = v := by
  intro h hb t b k v
  induction b with
  | nil =>
    intro hmem
    simp [BucketSplitRun] at hmem
  | cons s rest ih =>
    intro hmem
    by_cases hmov : KeyToBucketIndexByHighBit h hb s.key = t
    · simp only [BucketSplitRun, hmov, if_pos, List.mem_cons] at hmem
      rcases hmem with hmem | hmem
      · exact ⟨s, List.mem_cons_self _ _, (congrArg Prod.fst hmem).symm,
          (congrArg Prod.snd hmem).symm⟩
      · rcases ih hmem with ⟨u, hu, huk⟩
        exact ⟨u, List.mem_cons_of_mem _ hu, huk⟩
    · simp only [BucketSplitRun, hmov, if_neg, if_false] at hmem
      rcases ih hmem with ⟨u, hu, huk⟩
      exact ⟨u, List.mem_cons_of_mem _ hu, huk⟩

/-- Helper: a readable slot of the freshly filled split bucket carries
one of the moved pairs (the base page has no readable slots). -/
theorem insertAtRun_readable_mem :
    ∀ (base : BucketPage) (ms : List (Nat × Nat)) (s : BucketSlot),
      (∀ u ∈ base, u.readable = false) →
      s ∈ InsertAtRun base ms → s.readable = true → (s.key, s.value) ∈ ms := by
  intro base
  induction base with
  | nil =>
    intro ms s _ hmem
    have : InsertAtRun [] ms = [] := by cases ms <;> rfl
    rw [this] at hmem
    exact absurd hmem (List.not_mem_nil s)
  | cons u rest ih =>
    intro ms s hbase hmem hread
    cases ms with
    | nil =>
      simp only [InsertAtRun] at hmem
      exact absurd hread (by simp [hbase s hmem])
    | cons p ps =>
      simp only [InsertAtRun, List.mem_cons] at hmem
      rcases hmem with rfl | hmem
      · simp
      · have := ih ps s (fun w hw => hbase w (List.mem_cons_of_mem _ hw)) hmem hread
        exact List.mem_cons_of_mem _ this

/-- Helper: if every slot of the filled split bucket is readable, the
base page length is at most the number of moved pairs. -/
theorem insertAtRun_all_readable_length :
    ∀ (base : BucketPage) (ms : List (Nat × Nat)),
      (∀ u ∈ base, u.readable = false) →
      (∀ u ∈ InsertAtRun base ms, u.readable = true) →
      base.length ≤ ms.length := by
  intro base
  induction base with
  | nil =>
    intro ms _ _
    simp
  | cons u rest ih =>
    intro ms hbase hall
    cases ms with
    | nil =>
      have : u.readable = true := hall u (by simp [InsertAtRun])
      exact absurd this (by simp [hbase u (List.mem_cons_self _ _)])
    | cons p ps =>
      have := ih ps (fun w hw => hbase w (List.mem_cons_of_mem _ hw))
        (fun w hw => hall w (by simp [InsertAtRun, List.mem_cons]; exact Or.inr hw))
      simpa using Nat.succ_le_succ this

/-- Helper: no more pairs move than the bucket has slots. -/
theorem bucketSplitRun_length_le :
    ∀ (h : Nat → Nat) (hb t : Nat) (b : BucketPage),
      (BucketSplitRun h hb t b).2.length ≤ b.length := by
  intro h hb t b
  induction b with
  | nil => simp [BucketSplitRun]
  | cons s rest ih =>
    by_cases hmov : KeyToBucketIndexByHighBit h hb s.key = t <;>
      simp [BucketSplitRun, hmov] <;> omega

/-- Helper: when every slot moved, every slot's key maps to the split
image. -/
theorem bucketSplitRun_all_moved :
    ∀ (h : Nat → Nat) (hb t : Nat) (b : BucketPage),
      (BucketSplitRun h hb t b).2.length = b.length →
      ∀ s ∈ b, KeyToBucketIndexByHighBit h hb s.key = t := by
  intro h hb t b
  induction b with
  | nil =>
    intro _ s hs
    exact absurd hs (List.not_mem_nil s)
  | cons u rest ih =>
    intro hlen s hs
    by_cases hmov : KeyToBucketIndexByHighBit h hb u.key = t
    · have hlen2 : (BucketSplitRun h hb t rest).2.length = rest.length := by
        simpa [BucketSplitRun, hmov] using hlen
      rcases List.mem_cons.mp hs with rfl | hs2
      · exact hmov
      · exact ih hlen2 s hs2
    · have hle := bucketSplitRun_length_le h hb t rest
      have : (BucketSplitRun h hb t rest).2.length = rest.length + 1 := by
        simpa [BucketSplitRun, hmov] using hlen
      omega

/-- Helper: when at least one pair moved, the source bucket retains a
non-readable slot (the cleared one). -/
theorem bucketSplitRun_moved_not_full :
    ∀ (h : Nat → Nat) (hb t : Nat) (b : BucketPage),
      0 < (BucketSplitRun h hb t b).2.length →
      ∃ s ∈ (BucketSplitRun h hb t b).1, s.readable = false := by
  intro h hb t b
  induction b with
  | nil =>
    intro habs
    simp [BucketSplitRun] at habs
  | cons u rest ih =>
    intro hpos
    by_cases hmov : KeyToBucketIndexByHighBit h hb u.key = t
    · refine ⟨{ u with readable := false }, ?_, rfl⟩
      simp [BucketSplitRun, hmov]
    · have hpos2 : 0 < (BucketSplitRun h hb t rest).2.length := by
        simpa [BucketSplitRun, hmov] using hpos
      rcases ih hpos2 with ⟨s, hs, hsr⟩
      exact ⟨s, by simp [BucketSplitRun, hmov, List.mem_cons]; exact Or.inr hs, hsr⟩

/-- Helper: a readable slot kept in the source bucket after the split
sweep was a slot of the original bucket. -/
theorem bucketSplitRun_kept_readable_mem :
    ∀ (h : Nat → Nat) (hb t : Nat) (b : BucketPage) (s : BucketSlot),
      s ∈ (BucketSplitRun h hb t b).1 → s.readable = true → s ∈ b := by
  intro h hb t b
  induction b with
  | nil =>
    intro s hs _
    simp [BucketSplitRun] at hs
  | cons u rest ih =>
    intro s hs hr
    by_cases hmov : KeyToBucketIndexByHighBit h hb u.key = t
    · simp only [BucketSplitRun, hmov, if_pos, List.mem_cons] at hs
      rcases hs with rfl | hs
      · simp at hr
      · exact List.mem_cons_of_mem _ (ih s hs hr)
    · simp only [BucketSplitRun, hmov, if_neg, if_false, List.mem_cons] at hs
      rcases hs with rfl | hs
      · exact List.mem_cons_self _ _
      · exact List.mem_cons_of_mem _ (ih s hs hr)

/-- Helper: when no slot's key maps to the split image, nothing moves
and the source bucket is unchanged. -/
theorem bucketSplitRun_stay :
    ∀ (h : Nat → Nat) (hb t : Nat) (b : BucketPage),
      (∀ s ∈ b, KeyToBucketIndexByHighBit h hb s.key ≠ t) →
      (BucketSplitRun h hb t b).2 = [] ∧ (BucketSplitRun h hb t b).1 = b := by
  intro h hb t b
  induction b with
  | nil =>
    intro _
    simp [BucketSplitRun]
  | cons u rest ih =>
    intro hstay
    have hu := hstay u (List.mem_cons_self _ _)
    have hr := ih fun s hs => hstay s (List.mem_cons_of_mem _ hs)
    simp [BucketSplitRun, hu, hr.1, hr.2]

/-- Helper: the zeroed page has no readable slot. -/
theorem newBucket_readable_false :
    ∀ (n : Nat) (u : BucketSlot), u ∈ BucketPage.newBucket n → u.readable = false := by
  intro n u hu
  have := List.eq_of_mem_replicate hu
  simp [this]

/-- C2 as amended: write `bucket` for the (full) target bucket, `hb`
for the split bit and `sidx` for the split image index of one
`SplitInsert` run.  (1) When every pre-split entry stays on the
original side and the key also hashes to that still-full side, the run
ends in the tail-recursive retry (`again`), not in failure.  (2) A run
can only return failure when the directory cannot grow, or a readable
slot already holds the duplicate pair, or — the case the counterexample
exhibits, which the original claim excluded — every pre-split entry
moved to the split image and the key hashes there (the new bucket is
full again, and the code gives up instead of retrying). -/
theorem split_insert_retry_and_failure :
    ∀ (md bs : Nat) (h : Nat → Nat) (st : HashTableState) (key value : Nat)
      (bidx : Nat) (bpid : Int) (bucket : BucketPage) (dir1 : HashTableDirectoryPage)
      (hb sidx : Nat),
      bidx = KeyToDirectoryIndex h st.dir key →
      bpid = st.dir.GetBucketPageId bidx →
      bucket = st.buckets bpid →
      dir1 = (if st.dir.GetLocalDepth bidx = st.dir.global_depth then
        st.dir.IncrGlobalDepth else st.dir) →
      hb = dir1.GetLocalHighBit bidx →
      sidx = bidx ^^^ hb →
      ((BucketPage.IsFull bucket = true →
        ¬(st.dir.GetLocalDepth bidx = st.dir.global_depth ∧
          HashTableDirectoryPage.IsFull md st.dir = true) →
        (∀ s ∈ bucket, KeyToBucketIndexByHighBit h hb s.key ≠ sidx) →
        KeyToBucketIndexByHighBit h hb key ≠ sidx →
        (SplitInsertStep md bs h st key value).isAgain = true) ∧
      (bucket.length = bs →
        (SplitInsertStep md bs h st key value).isDoneFalse = true →
        (BucketPage.IsFull bucket = true ∧ st.dir.GetLocalDepth bidx = st.dir.global_depth ∧
          HashTableDirectoryPage.IsFull md st.dir = true) ∨
        (∃ s ∈ bucket, s.readable = true ∧ s.key = key ∧ s.value = value) ∨
        ((∀ s ∈ bucket, KeyToBucketIndexByHighBit h hb s.key = sidx) ∧
          KeyToBucketIndexByHighBit h hb key = sidx))) := by
  intro md bs h st key value bidx bpid bucket dir1 hb sidx hbidx hbpid hbucket hdir1 hhb hsidx
  constructor
  · intro hfull hgrow hstay hkey
    have hsp := bucketSplitRun_stay h hb sidx bucket hstay
    simp only [SplitInsertStep]
    rw [← hbidx, ← hbpid, ← hbucket, ← hdir1, ← hhb, ← hsidx]
    rw [if_pos hfull, if_neg hgrow, if_neg hkey, hsp.1]
    simp [SplitOutcome.isAgain]
  · intro hlen hdone
    simp only [SplitInsertStep] at hdone
    rw [← hbidx, ← hbpid, ← hbucket, ← hdir1, ← hhb, ← hsidx] at hdone
    by_cases hfull : BucketPage.IsFull bucket = true
    · rw [if_pos hfull] at hdone
      by_cases hgd : st.dir.GetLocalDepth bidx = st.dir.global_depth ∧
          HashTableDirectoryPage.IsFull md st.dir = true
      · exact Or.inl ⟨hfull, hgd⟩
      · rw [if_neg hgd] at hdone
        have hallread : ∀ s ∈ bucket, s.readable = true := by
          intro s hs
          have := hfull
          simp only [BucketPage.IsFull, List.all_eq_true] at this
          exact this s hs
        by_cases his : KeyToBucketIndexByHighBit h hb key = sidx
        · rw [if_pos his] at hdone
          cases hins : (BucketPage.Insert
              (InsertAtRun (BucketPage.newBucket bs) (BucketSplitRun h hb sidx bucket).2)
              key value).1 with
          | true =>
            rw [hins] at hdone
            simp [SplitOutcome.isDoneFalse] at hdone
          | false =>
            rcases bucketInsert_false_cases _ key value hins with ⟨u, hu, hur, huk⟩ | hall
            · have hpair := insertAtRun_readable_mem (BucketPage.newBucket bs)
                (BucketSplitRun h hb sidx bucket).2 u
                (newBucket_readable_false bs) hu hur
              rw [huk.1, huk.2] at hpair
              rcases bucketSplitRun_moved_mem h hb sidx bucket key value hpair with
                ⟨s, hsb, hsk⟩
              exact Or.inr (Or.inl ⟨s, hsb, hallread s hsb, hsk⟩)
            · have hge : bs ≤ (BucketSplitRun h hb sidx bucket).2.length := by
                have := insertAtRun_all_readable_length (BucketPage.newBucket bs)
                  (BucketSplitRun h hb sidx bucket).2
                  (newBucket_readable_false bs) hall
                simpa [BucketPage.newBucket] using this
              have hle := bucketSplitRun_length_le h hb sidx bucket
              have heq : (BucketSplitRun h hb sidx bucket).2.length = bucket.length := by
                omega
              exact Or.inr (Or.inr
                ⟨bucketSplitRun_all_moved h hb sidx bucket heq, his⟩)
        · rw [if_neg his] at hdone
          by_cases hsc : 0 < (BucketSplitRun h hb sidx bucket).2.length
          · rw [if_pos hsc] at hdone
            cases hins : (BucketPage.Insert (BucketSplitRun h hb sidx bucket).1
                key value).1 with
            | true =>
              rw [hins] at hdone
              simp [SplitOutcome.isDoneFalse] at hdone
            | false =>
              rcases bucketInsert_false_cases _ key value hins with ⟨u, hu, hur, huk⟩ | hall
              · have hub := bucketSplitRun_kept_readable_mem h hb sidx bucket u hu hur
                exact Or.inr (Or.inl ⟨u, hub, hur, huk⟩)
              · rcases bucketSplitRun_moved_not_full h hb sidx bucket hsc with ⟨u, hu, hur⟩
                have := hall u hu
                rw [this] at hur
                exact absurd hur (by simp)
          · rw [if_neg hsc] at hdone
            simp [SplitOutcome.isDoneFalse] at hdone
    · rw [if_neg hfull] at hdone
      cases hins : (BucketPage.Insert bucket key value).1 with
      | true =>
        rw [hins] at hdone
        simp [SplitOutcome.isDoneFalse] at hdone
      | false =>
        rcases bucketInsert_false_cases bucket key value hins with ⟨u, hu, hur, huk⟩ | hall
        · exact Or.inr (Or.inl ⟨u, hu, hur, huk⟩)
        · have : BucketPage.IsFull bucket = true := by
            simp only [BucketPage.IsFull, List.all_eq_true]
            exact hall
          exact absurd this hfull

/-- Counterexample for C2 as stated: in `c2State` the target bucket of
key 5 is full, the pair (5, 7) is not stored, and the directory can
still grow, yet the run returns failure without retrying the split:
both pre-split pairs move to the split image (split count 2), key 5
hashes to that side too, and the insert into the full new bucket
fails. -/
theorem split_insert_all_moved_counterexample :
    BucketPage.IsFull (c2State.buckets
      (c2State.dir.GetBucketPageId (KeyToDirectoryIndex id c2State.dir 5))) = true ∧
    HashTableDirectoryPage.IsFull 9 c2State.dir = false ∧
    BucketPage.GetValue (c2State.buckets 10) 5 = [] ∧
    (BucketSplitRun id 1 1 (c2State.buckets 10)).2.length = 2 ∧
    KeyToBucketIndexByHighBit id 1 5 = 1 ∧
    (SplitInsertStep 9 2 id c2State 5 7).isDoneFalse = true ∧
    (SplitInsertStep 9 2 id c2State 5 7).isAgain = false := by
  refine ⟨?_, ?_, ?_, ?_, ?_, ?_, ?_⟩ <;> decide

/-- Witness for C2 (amended): in `c2StayState` both pre-split pairs
stay on the original side and key 6 hashes there, so the run ends in
the tail-recursive retry. -/
theorem split_insert_retry_and_failure_witness :
    (SplitInsertStep 9 2 id c2StayState 6 7).isAgain = true := by
  have h := split_insert_retry_and_failure 9 2 id c2StayState 6 7
    0 10 (c2StayState.buckets 10) c2StayState.dir.IncrGlobalDepth 1 1
    (by decide) (by decide) rfl (if_pos rfl).symm (by decide) (by decide)
  exact h.1 (by decide) (by decide) (by decide) (by decide)

/-! ## C4: the replacer only holds unpinned frames -/

/-- Helper: reading the pages after a frame write. -/
theorem setPage_pages (s : BPv1.BPState) (f : Nat) (p : BPv1.Page) (g : Nat) :
    ((BPv1.setPage s f p).pages g) = if g = f then p else s.pages g := rfl

/-- Helper: a frame write keeps the replacer. -/
theorem setPage_replacer (s : BPv1.BPState) (f : Nat) (p : BPv1.Page) :
    (BPv1.setPage s f p).replacer = s.replacer := rfl

/-- Helper: a frame write keeps the free list. -/
theorem setPage_free_list (s : BPv1.BPState) (f : Nat) (p : BPv1.Page) :
    (BPv1.setPage s f p).free_list = s.free_list := rfl

/-- Helper: a frame write keeps the page table. -/
theorem setPage_page_table (s : BPv1.BPState) (f : Nat) (p : BPv1.Page) :
    (BPv1.setPage s f p).page_table = s.page_table := rfl

/-- Helper: a frame write keeps the pool size. -/
theorem setPage_pool_size (s : BPv1.BPState) (f : Nat) (p : BPv1.Page) :
    (BPv1.setPage s f p).pool_size = s.pool_size := rfl

/-- Helper: membership after an LRU insert. -/
theorem replUnpin_mem (n : Nat) (r : List Nat) (f g : Nat)
    (h : g ∈ replUnpin n r f) : g ∈ r ∨ (g = f ∧ f < n ∧ f ∉ r) := by
  by_cases h1 : f < n
  · by_cases h2 : f ∈ r
    · simp [replUnpin, h1, h2] at h
      exact Or.inl h
    · simp only [replUnpin, h1, h2, not_true_eq_false, if_false, not_false_eq_true,
        if_true, if_neg, List.mem_append, List.mem_singleton] at h
      rcases h with h | h
      · exact Or.inl h
      · exact Or.inr ⟨h, h1, h2⟩
  · simp [replUnpin, h1] at h
    exact Or.inl h

/-- Helper: an LRU insert keeps the list duplicate-free. -/
theorem replUnpin_nodup (n : Nat) (r : List Nat) (f : Nat)
    (h : r.Nodup) : (replUnpin n r f).Nodup := by
  by_cases h1 : f < n
  · by_cases h2 : f ∈ r
    · simpa [replUnpin, h1, h2] using h
    · simp only [replUnpin, h1, h2, not_true_eq_false, if_false, not_false_eq_true, if_neg]
      simp [List.nodup_append, h, h2]
  · simpa [replUnpin, h1] using h

/-- Helper: an LRU remove only keeps old members. -/
theorem replPin_mem (n : Nat) (r : List Nat) (f g : Nat)
    (h : g ∈ replPin n r f) : g ∈ r := by
  by_cases h1 : f < n
  · by_cases h2 : f ∈ r
    · simp only [replPin, h1, h2, not_true_eq_false, if_false, if_neg,
        not_false_eq_true] at h
      exact List.mem_of_mem_erase h
    · simpa [replPin, h1, h2] using h
  · simpa [replPin, h1] using h

/-- Helper: an LRU remove keeps the list duplicate-free. -/
theorem replPin_nodup (n : Nat) (r : List Nat) (f : Nat)
    (h : r.Nodup) : (replPin n r f).Nodup := by
  by_cases h1 : f < n
  · by_cases h2 : f ∈ r
    · simp only [replPin, h1, h2, not_true_eq_false, if_false, if_neg, not_false_eq_true]
      exact h.erase f
    · simpa [replPin, h1, h2] using h
  · simpa [replPin, h1] using h

/-- Helper: after removing a frame from a duplicate-free replacer it is
gone. -/
theorem replPin_not_mem_self (n : Nat) (r : List Nat) (f : Nat)
    (hn : r.Nodup) (hlt : f ∈ r → f < n) : f ∉ replPin n r f := by
  by_cases h2 : f ∈ r
  · have h1 : f < n := hlt h2
    simp only [replPin, h1, h2, not_true_eq_false, if_false, if_neg, not_false_eq_true]
    exact hn.not_mem_erase
  · by_cases h1 : f < n
    · simpa [replPin, h1, h2] using h2
    · simpa [replPin, h1] using h2

/-- Helper: a lookup that survives an erase was present before. -/
theorem tableErase_lookup_some (t : List (Int × Nat)) (pid q : Int) (g : Nat)
    (h : tableLookup (tableErase t pid) q = some g) : tableLookup t q = some g := by
  induction t with
  | nil => simpa [tableErase] using h
  | cons pr rest ih =>
    by_cases hpr : pr.1 = pid
    · by_cases hq : pr.1 = q
      · rw [← hq] at h ⊢
        rw [hpr] at h
        rw [tableLookup_erase_self] at h
        exact absurd h (by simp)
      · rw [tableErase, List.filter_cons_of_neg (by simpa using hpr)] at h
        simpa [tableLookup, hq] using ih (by simpa [tableErase] using h)
    · rw [tableErase, List.filter_cons_of_pos (by simpa using hpr)] at h
      by_cases hq : pr.1 = q
      · simpa [tableLookup, hq] using h
      · simp only [tableLookup, hq, if_neg, if_false] at h ⊢
        exact ih (by simpa [tableErase] using h)

/-- Helper: lookup after an insert. -/
theorem tableInsert_lookup (t : List (Int × Nat)) (pid : Int) (f : Nat) (q : Int) :
    tableLookup (tableInsert t pid f) q =
      if pid = q then some f else tableLookup t q := rfl

/-- C4 base case: the invariant holds for a freshly constructed
pool. -/
theorem bpinv_init (n : Nat) : BPInv (BPv1.initState n) := by
  refine ⟨?_, ?_, ?_, ?_, ?_, ?_, ?_⟩ <;>
    simp [BPv1.initState, List.nodup_range, tableLookup]

/-- C4 preservation: `UnpinPgImp`. -/
theorem bpinv_unpin (s : BPv1.BPState) (pid : Int) (d : Bool) (hInv : BPInv s) :
    BPInv (BPv1.UnpinPgImp s pid d).2 := by
  rcases hlook : tableLookup s.page_table pid with - | f
  · simpa [BPv1.UnpinPgImp, hlook] using hInv
  · by_cases hple : (s.pages f).pin_count ≤ 0
    · simpa [BPv1.UnpinPgImp, hlook, hple] using hInv
    · have hfnotrepl : f ∉ s.replacer := by
        intro habs
        exact hple (le_of_eq (hInv.replPinsZero f habs))
      have hfnotfree : f ∉ s.free_list := hInv.tableNotFree pid f hlook
      by_cases hz : (s.pages f).pin_count - 1 = 0
      · refine ⟨?_, ?_, ?_, ?_, ?_, ?_, ?_⟩ <;>
          simp only [BPv1.UnpinPgImp, hlook, hple, if_false, if_neg, not_false_eq_true,
            hz, if_pos, if_true, setPage_replacer, setPage_free_list, setPage_page_table,
            setPage_pool_size]
        · exact replUnpin_nodup _ _ _ hInv.replNodup
        · exact hInv.freeNodup
        · intro g
          rw [setPage_pages]
          by_cases hg : g = f
          · simp only [hg, if_pos]
            omega
          · simp [hg, hInv.pinsNonneg g]
        · intro g hg
          rcases replUnpin_mem _ _ _ _ hg with hg2 | ⟨rfl, hlt, -⟩
          · exact hInv.replLtPool g hg2
          · exact hlt
        · intro g hg
          rcases replUnpin_mem _ _ _ _ hg with hg2 | ⟨rfl, -, -⟩
          · rw [setPage_pages]
            have : g ≠ f := fun he => hfnotrepl (he ▸ hg2)
            simp [this]
            exact hInv.replPinsZero g hg2
          · rw [setPage_pages]
            simpa using hz
        · intro g hg habs
          rcases replUnpin_mem _ _ _ _ habs with hg2 | ⟨rfl, -, -⟩
          · exact hInv.freeNotRepl g hg hg2
          · exact hfnotfree hg
        · intro q g hq
          exact hInv.tableNotFree q g hq
      · refine ⟨?_, ?_, ?_, ?_, ?_, ?_, ?_⟩ <;>
          simp only [BPv1.UnpinPgImp, hlook, hple, if_false, if_neg, not_false_eq_true,
            hz, setPage_replacer, setPage_free_list, setPage_page_table, setPage_pool_size]
        · exact hInv.replNodup
        · exact hInv.freeNodup
        · intro g
          rw [setPage_pages]
          by_cases hg : g = f
          · simp only [hg, if_pos]
            omega
          · simp [hg, hInv.pinsNonneg g]
        · exact hInv.replLtPool
        · intro g hg
          rw [setPage_pages]
          have : g ≠ f := fun he => hfnotrepl (he ▸ hg)
          simp [this]
          exact hInv.replPinsZero g hg
        · exact hInv.freeNotRepl
        · intro q g hq
          exact hInv.tableNotFree q g hq

/-- C4 preservation: `DeletePgImp`. -/
theorem bpinv_delete (s : BPv1.BPState) (pid : Int) (hInv : BPInv s) :
    BPInv (BPv1.DeletePgImp s pid).2 := by
  rcases hlook : tableLookup s.page_table pid with - | f
  · simpa [BPv1.DeletePgImp, hlook] using hInv
  · by_cases hp : 0 < (s.pages f).pin_count
    · simpa [BPv1.DeletePgImp, hlook, hp] using hInv
    · refine ⟨?_, ?_, ?_, ?_, ?_, ?_, ?_⟩ <;>
        simp only [BPv1.DeletePgImp, hlook, hp, if_false, if_neg, not_false_eq_true]
      · exact hInv.replNodup
      · exact hInv.freeNodup
      · exact hInv.pinsNonneg
      · exact hInv.replLtPool
      · exact hInv.replPinsZero
      · exact hInv.freeNotRepl
      · intro q g hq
        exact hInv.tableNotFree q g (tableErase_lookup_some _ _ _ _ hq)

/-- Helper: flushing one entry leaves everything but the page bits
alone. -/
theorem flushOneEntry_components (acc : BPv1.BPState) (pr : Int × Nat) :
    (BPv1.FlushOneEntry acc pr).replacer = acc.replacer ∧
    (BPv1.FlushOneEntry acc pr).free_list = acc.free_list ∧
    (BPv1.FlushOneEntry acc pr).page_table = acc.page_table ∧
    (BPv1.FlushOneEntry acc pr).pool_size = acc.pool_size ∧
    ∀ f : Nat, ((BPv1.FlushOneEntry acc pr).pages f).pin_count = (acc.pages f).pin_count := by
  refine ⟨?_, ?_, ?_, ?_, ?_⟩ <;>
    simp only [BPv1.FlushOneEntry]
  · split <;> rfl
  · split <;> rfl
  · split <;> rfl
  · split <;> rfl
  · intro f
    split <;>
      (rw [setPage_pages]; by_cases hf : f = pr.2 <;> simp [hf])

/-- Helper: the `FlushAllPgsImp` fold leaves everything but the page
bits alone. -/
theorem flushFold_components (l : List (Int × Nat)) (acc : BPv1.BPState) :
    (l.foldl BPv1.FlushOneEntry acc).replacer = acc.replacer ∧
    (l.foldl BPv1.FlushOneEntry acc).free_list = acc.free_list ∧
    (l.foldl BPv1.FlushOneEntry acc).page_table = acc.page_table ∧
    (l.foldl BPv1.FlushOneEntry acc).pool_size = acc.pool_size ∧
    ∀ f : Nat, ((l.foldl BPv1.FlushOneEntry acc).pages f).pin_count =
      (acc.pages f).pin_count := by
  induction l generalizing acc with
  | nil => exact ⟨rfl, rfl, rfl, rfl, fun _ => rfl⟩
  | cons pr rest ih =>
    obtain ⟨h1, h2, h3, h4, h5⟩ := ih (BPv1.FlushOneEntry acc pr)
    obtain ⟨g1, g2, g3, g4, g5⟩ := flushOneEntry_components acc pr
    exact ⟨h1.trans g1, h2.trans g2, h3.trans g3, h4.trans g4,
      fun f => (h5 f).trans (g5 f)⟩

/-- C4 preservation: `FlushAllPgsImp`. -/
theorem bpinv_flushAll (s : BPv1.BPState) (hInv : BPInv s) :
    BPInv (BPv1.FlushAllPgsImp s) := by
  obtain ⟨h1, h2, h3, h4, h5⟩ := flushFold_components s.page_table s
  rw [BPv1.FlushAllPgsImp]
  refine ⟨?_, ?_, ?_, ?_, ?_, ?_, ?_⟩
  · rw [h1]; exact hInv.replNodup
  · rw [h2]; exact hInv.freeNodup
  · intro f
    rw [h5 f]; exact hInv.pinsNonneg f
  · intro f hf
    rw [h1] at hf
    rw [h4]; exact hInv.replLtPool f hf
  · intro f hf
    rw [h1] at hf
    rw [h5 f]; exact hInv.replPinsZero f hf
  · intro f hf
    rw [h2] at hf
    rw [h1]; exact hInv.freeNotRepl f hf
  · intro q g hq
    rw [h3] at hq
    rw [h2]; exact hInv.tableNotFree q g hq

/-- C4 preservation: `FreeListGetFrame`. -/
theorem bpinv_freeListGetFrame (s : BPv1.BPState) (pid : Int) (hInv : BPInv s) :
    BPInv (BPv1.FreeListGetFrame s pid).2.2 := by
  rcases hfl : s.free_list with - | ⟨f, fl⟩
  · simpa [BPv1.FreeListGetFrame, hfl] using hInv
  · have hffl : f ∉ fl ∧ fl.Nodup := by
      have := hInv.freeNodup
      rw [hfl, List.nodup_cons] at this
      exact this
    have hfhead : f ∈ s.free_list := by rw [hfl]; exact List.mem_cons_self f fl
    have hfnotrepl : f ∉ s.replacer := hInv.freeNotRepl f hfhead
    by_cases hpe : pid = -1
    all_goals (
      simp only [BPv1.FreeListGetFrame, hfl, hpe, if_true, if_false, if_pos, if_neg,
        not_false_eq_true, reduceIte]
      rcases hlook2 : tableLookup s.page_table (if pid = -1 then s.next_page_id else pid)
        with - | existing)
    case pos.none =>
      rw [if_pos hpe] at hlook2
      simp only [hpe, if_true, reduceIte, hlook2]
      refine ⟨hInv.replNodup, hffl.2, ?_, hInv.replLtPool, ?_, ?_, ?_⟩
      · intro g
        rw [setPage_pages]
        by_cases hg : g = f <;> simp [hg, BPv1.ResetPageMeta, hInv.pinsNonneg g]
      · intro g hg
        rw [setPage_pages]
        have hgf : g ≠ f := fun he => hfnotrepl (he ▸ hg)
        simp only [hgf, if_neg, if_false]
        exact hInv.replPinsZero g hg
      · intro g hg
        exact hInv.freeNotRepl g (by rw [hfl]; exact List.mem_cons_of_mem f hg)
      · intro q g hq
        rw [tableInsert_lookup] at hq
        by_cases hqe : s.next_page_id = q
        · rw [if_pos hqe] at hq
          cases hq
          exact hffl.1
        · rw [if_neg hqe] at hq
          intro habs
          exact hInv.tableNotFree q g hq (by rw [hfl]; exact List.mem_cons_of_mem f habs)
    case pos.some =>
      rw [if_pos hpe] at hlook2
      simp only [hpe, if_true, reduceIte, hlook2]
      refine ⟨hInv.replNodup, ?_, hInv.pinsNonneg, hInv.replLtPool, hInv.replPinsZero, ?_, ?_⟩
      · simpa [List.nodup_append, hffl.1, hffl.2] using hffl.2
      · intro g hg
        rcases List.mem_append.mp hg with hg2 | hg2
        · exact hInv.freeNotRepl g (by rw [hfl]; exact List.mem_cons_of_mem f hg2)
        · rw [List.mem_singleton] at hg2
          exact hg2 ▸ hfnotrepl
      · intro q g hq habs
        rcases List.mem_append.mp habs with hg2 | hg2
        · exact hInv.tableNotFree q g hq (by rw [hfl]; exact List.mem_cons_of_mem f hg2)
        · rw [List.mem_singleton] at hg2
          exact hInv.tableNotFree q g hq (hg2 ▸ hfhead)
    case neg.none =>
      rw [if_neg hpe] at hlook2
      simp only [hpe, if_false, reduceIte, hlook2]
      refine ⟨hInv.replNodup, hffl.2, ?_, hInv.replLtPool, ?_, ?_, ?_⟩
      · intro g
        rw [setPage_pages]
        by_cases hg : g = f <;> simp [hg, BPv1.ResetPageMeta, hInv.pinsNonneg g]
      · intro g hg
        rw [setPage_pages]
        have hgf : g ≠ f := fun he => hfnotrepl (he ▸ hg)
        simp only [hgf, if_neg, if_false]
        exact hInv.replPinsZero g hg
      · intro g hg
        exact hInv.freeNotRepl g (by rw [hfl]; exact List.mem_cons_of_mem f hg)
      · intro q g hq
        rw [tableInsert_lookup] at hq
        by_cases hqe : pid = q
        · rw [if_pos hqe] at hq
          cases hq
          exact hffl.1
        · rw [if_neg hqe] at hq
          intro habs
          exact hInv.tableNotFree q g hq (by rw [hfl]; exact List.mem_cons_of_mem f habs)
    case neg.some =>
      rw [if_neg hpe] at hlook2
      simp only [hpe, if_false, reduceIte, hlook2]
      refine ⟨hInv.replNodup, ?_, hInv.pinsNonneg, hInv.replLtPool, hInv.replPinsZero, ?_, ?_⟩
      · simpa [List.nodup_append, hffl.1, hffl.2] using hffl.2
      · intro g hg
        rcases List.mem_append.mp hg with hg2 | hg2
        · exact hInv.freeNotRepl g (by rw [hfl]; exact List.mem_cons_of_mem f hg2)
        · rw [List.mem_singleton] at hg2
          exact hg2 ▸ hfnotrepl
      · intro q g hq habs
        rcases List.mem_append.mp habs with hg2 | hg2
        · exact hInv.tableNotFree q g hq (by rw [hfl]; exact List.mem_cons_of_mem f hg2)
        · rw [List.mem_singleton] at hg2
          exact hInv.tableNotFree q g hq (hg2 ▸ hfhead)

/-- C4 preservation: `ReplacerGetFrame` (under the invariant every
replacer entry has pin count 0, so the victim loop pops exactly once). -/
theorem bpinv_replacerGetFrame (s : BPv1.BPState) (pid : Int) (hInv : BPInv s) :
    BPInv (BPv1.ReplacerGetFrame s pid).2.2 := by
  rw [BPv1.ReplacerGetFrame.eq_def]
  split
  · exact hInv
  next f r heq =>
    have hfmem : f ∈ s.replacer := by rw [heq]; exact List.mem_cons_self f r
    have hrmem : ∀ g ∈ r, g ∈ s.replacer := by
      intro g hg
      rw [heq]; exact List.mem_cons_of_mem f hg
    have hpin0 : (s.pages f).pin_count = 0 := hInv.replPinsZero f hfmem
    have hfr : f ∉ r ∧ r.Nodup := by
      have := hInv.replNodup
      rw [heq, List.nodup_cons] at this
      exact this
    have hfn : f < s.pool_size := hInv.replLtPool f hfmem
    have hfnotfree : f ∉ s.free_list := fun h => hInv.freeNotRepl f h hfmem
    simp only [apply_ite BPv1.BPState.pages, apply_ite BPv1.BPState.page_table,
      apply_ite BPv1.BPState.pool_size, apply_ite BPv1.BPState.replacer,
      apply_ite BPv1.BPState.free_list, ite_self, hpin0, lt_self_iff_false, if_false,
      reduceIte]
    rcases hlook2 : tableLookup s.page_table (if pid = -1 then s.next_page_id else pid)
      with - | existing
    all_goals (
      dsimp only
      try simp only [BPv1.setPage, apply_ite BPv1.BPState.pages, apply_ite BPv1.BPState.page_table,
        apply_ite BPv1.BPState.pool_size, apply_ite BPv1.BPState.replacer,
        apply_ite BPv1.BPState.free_list, ite_self])
    · refine ⟨hfr.2, hInv.freeNodup, ?_, ?_, ?_, ?_, ?_⟩
      · intro g
        by_cases hg : g = f <;> simp [hg, BPv1.ResetPageMeta, hInv.pinsNonneg g]
      · intro g hg
        exact hInv.replLtPool g (hrmem g hg)
      · intro g hg
        have hgf : g ≠ f := fun he => hfr.1 (he ▸ hg)
        simp only [hgf, if_neg, if_false]
        exact hInv.replPinsZero g (hrmem g hg)
      · intro g hg habs
        exact hInv.freeNotRepl g hg (hrmem g habs)
      · intro q g hq
        rw [tableInsert_lookup] at hq
        by_cases hqe : (if pid = -1 then s.next_page_id else pid) = q
        · rw [if_pos hqe] at hq
          cases hq
          exact hfnotfree
        · rw [if_neg hqe] at hq
          exact hInv.tableNotFree q g (tableErase_lookup_some _ _ _ _ hq)
    · refine ⟨replUnpin_nodup _ _ _ hfr.2, hInv.freeNodup, hInv.pinsNonneg, ?_, ?_, ?_,
        hInv.tableNotFree⟩
      · intro g hg
        rcases replUnpin_mem _ _ _ _ hg with hg2 | ⟨rfl, hlt, -⟩
        · exact hInv.replLtPool g (hrmem g hg2)
        · exact hlt
      · intro g hg
        rcases replUnpin_mem _ _ _ _ hg with hg2 | ⟨rfl, -, -⟩
        · exact hInv.replPinsZero g (hrmem g hg2)
        · exact hpin0
      · intro g hg habs
        rcases replUnpin_mem _ _ _ _ habs with hg2 | ⟨rfl, -, -⟩
        · exact hInv.freeNotRepl g hg (hrmem g hg2)
        · exact hfnotfree hg

/-- C4 preservation: `FetchPgImp`. -/
theorem bpinv_fetch (s : BPv1.BPState) (pid : Int) (hInv : BPInv s) :
    BPInv (BPv1.FetchPgImp s pid).2 := by
  rcases hlook : tableLookup s.page_table pid with - | f
  · simp only [BPv1.FetchPgImp, hlook]
    rcases h1 : (BPv1.FreeListGetFrame s pid).1 with - | f1
    · rcases h2 : (BPv1.ReplacerGetFrame s pid).1 with - | f2 <;>
        (dsimp only; exact bpinv_replacerGetFrame s pid hInv)
    · dsimp only
      exact bpinv_freeListGetFrame s pid hInv
  · by_cases hp0 : (s.pages f).pin_count = 0
    · simp only [BPv1.FetchPgImp, hlook, hp0, if_pos, if_true, reduceIte, BPv1.setPage]
      refine ⟨?_, hInv.freeNodup, ?_, ?_, ?_, ?_, hInv.tableNotFree⟩
      · exact replPin_nodup _ _ _ hInv.replNodup
      · intro g
        by_cases hg : g = f <;> simp [hg, hInv.pinsNonneg g]
      · intro g hg
        exact hInv.replLtPool g (replPin_mem _ _ _ _ hg)
      · intro g hg
        have hgf : g ≠ f := by
          intro he
          exact replPin_not_mem_self _ _ _ hInv.replNodup
            (fun h => hInv.replLtPool f h) (he ▸ hg)
        simp only [hgf, if_neg, if_false]
        exact hInv.replPinsZero g (replPin_mem _ _ _ _ hg)
      · intro g hg habs
        exact hInv.freeNotRepl g hg (replPin_mem _ _ _ _ habs)
    · have hfnotrepl : f ∉ s.replacer := fun h => hp0 (hInv.replPinsZero f h)
      simp only [BPv1.FetchPgImp, hlook, hp0, if_neg, if_false, reduceIte, BPv1.setPage]
      refine ⟨hInv.replNodup, hInv.freeNodup, ?_, hInv.replLtPool, ?_, hInv.freeNotRepl,
        hInv.tableNotFree⟩
      · intro g
        by_cases hg : g = f <;> simp [hg, hInv.pinsNonneg g]
        have := hInv.pinsNonneg f
        omega
      · intro g hg
        have hgf : g ≠ f := fun he => hfnotrepl (he ▸ hg)
        simp only [hgf, if_neg, if_false]
        exact hInv.replPinsZero g hg

/-- C4 preservation: `NewPgImp`. -/
theorem bpinv_new (s : BPv1.BPState) (hInv : BPInv s) :
    BPInv (BPv1.NewPgImp s).2 := by
  simp only [BPv1.NewPgImp]
  rcases h1 : (BPv1.FreeListGetFrame s (-1)).1 with - | f1
  · rcases h2 : (BPv1.ReplacerGetFrame s (-1)).1 with - | f2 <;>
      (dsimp only; exact bpinv_replacerGetFrame s (-1) hInv)
  · dsimp only
    exact bpinv_freeListGetFrame s (-1) hInv

/-- C4 preservation: `FlushPgImp`. -/
theorem bpinv_flush (s : BPv1.BPState) (pid : Int) (hInv : BPInv s) :
    BPInv (BPv1.FlushPgImp s pid).2 := by
  rcases hlook : tableLookup s.page_table pid with - | f
  · simpa [BPv1.FlushPgImp, hlook] using hInv
  · by_cases hd : (s.pages f).is_dirty = true
    · have hfnotfree : f ∉ s.free_list := hInv.tableNotFree pid f hlook
      by_cases h0 : (s.pages f).pin_count = 0
      · have hone : (s.pages f).pin_count + 1 = 1 := by omega
        simp only [BPv1.FlushPgImp, hlook, hd, h0, hone, not_true_eq_false, if_false,
          if_neg, not_false_eq_true, if_pos, if_true, reduceIte, BPv1.setPage,
          Bool.not_eq_true, reduceCtorEq, zero_add, sub_self]
        refine ⟨?_, hInv.freeNodup, ?_, ?_, ?_, ?_, hInv.tableNotFree⟩
        · exact replUnpin_nodup _ _ _ (replPin_nodup _ _ _ hInv.replNodup)
        · intro g
          by_cases hg : g = f <;> simp [hg, hInv.pinsNonneg g]
        · intro g hg
          rcases replUnpin_mem _ _ _ _ hg with hg2 | ⟨rfl, hlt, -⟩
          · exact hInv.replLtPool g (replPin_mem _ _ _ _ hg2)
          · exact hlt
        · intro g hg
          rcases replUnpin_mem _ _ _ _ hg with hg2 | ⟨rfl, -, -⟩
          · have hgf : g ≠ f := by
              intro he
              exact replPin_not_mem_self _ _ _ hInv.replNodup
                (fun h => hInv.replLtPool f h) (he ▸ hg2)
            simp only [hgf, if_neg, if_false]
            exact hInv.replPinsZero g (replPin_mem _ _ _ _ hg2)
          · simp
        · intro g hg habs
          rcases replUnpin_mem _ _ _ _ habs with hg2 | ⟨rfl, -, -⟩
          · exact hInv.freeNotRepl g hg (replPin_mem _ _ _ _ hg2)
          · exact hfnotfree hg
      · have hone : ¬((s.pages f).pin_count + 1 = 1) := by omega
        have hfnotrepl : f ∉ s.replacer := fun h => h0 (hInv.replPinsZero f h)
        simp only [BPv1.FlushPgImp, hlook, hd, h0, hone, not_true_eq_false, if_false,
          if_neg, not_false_eq_true, reduceIte, BPv1.setPage, Bool.not_eq_true, reduceCtorEq]
        refine ⟨hInv.replNodup, hInv.freeNodup, ?_, hInv.replLtPool, ?_, hInv.freeNotRepl,
          hInv.tableNotFree⟩
        · intro g
          by_cases hg : g = f <;> simp [hg, hInv.pinsNonneg g]
          have := hInv.pinsNonneg f
          omega
        · intro g hg
          have hgf : g ≠ f := fun he => hfnotrepl (he ▸ hg)
          simp only [hgf, if_neg, if_false]
          exact hInv.replPinsZero g hg
    · simpa [BPv1.FlushPgImp, hlook, hd] using hInv

/-- Helper: every reachable buffer-pool state satisfies the full
invariant. -/
theorem bpinv_reachable (s : BPv1.BPState) (h : BPv1.Reachable s) : BPInv s := by
  induction h with
  | init n => exact bpinv_init n
  | newPg _ ih => exact bpinv_new _ ih
  | fetchPg pid _ ih => exact bpinv_fetch _ pid ih
  | unpinPg pid d _ ih => exact bpinv_unpin _ pid d ih
  | flushPg pid _ ih => exact bpinv_flush _ pid ih
  | flushAllPgs _ ih => exact bpinv_flushAll _ ih
  | deletePg pid _ ih => exact bpinv_delete _ pid ih

/-- C4: in every reachable state of a buffer-pool instance (operations
taken atomically in any order from a fresh pool), the LRU replacer
contains only frames whose page has pin count 0: for every frame id
present in the replacer, the pin count of the page occupying that frame
equals zero. -/
theorem replacer_frames_have_zero_pin (s : BPv1.BPState) (h : BPv1.Reachable s) :
    ∀ f ∈ s.replacer, (s.pages f).pin_count = 0 :=
  fun f hf => (bpinv_reachable s h).replPinsZero f hf

/-- Witness for C4: from a fresh pool of one frame, `NewPgImp` then
`UnpinPgImp(0, true)` leaves frame 0 in the replacer with pin count
0. -/
theorem replacer_frames_have_zero_pin_witness :
    0 ∈ (BPv1.UnpinPgImp (BPv1.NewPgImp (BPv1.initState 1)).2 0 true).2.replacer ∧
    (((BPv1.UnpinPgImp (BPv1.NewPgImp (BPv1.initState 1)).2 0 true).2.pages 0).pin_count = 0) :=
  ⟨by decide,
    replacer_frames_have_zero_pin _
      (BPv1.Reachable.unpinPg 0 true (BPv1.Reachable.newPg (BPv1.Reachable.init 1)))
      0 (by decide)⟩
